import Mathlib

/-!
Verification development for the YouPS front-end log-synchronisation code.

The definitions below are a shallow embedding of
`src/http_handler/static/javascript/youps/history_table.js` (the execution-log
table: `append_log`, `fetch_log`, the `#btn-log-load-more` handler and the
DataTables reorder) and of the `fetch_log` poll loop of
`src/http_handler/static/javascript/murmur/login_imap.js`.

Conventions of the embedding:
* A decoded JSON object is its key/value binding list in insertion order
  (JavaScript objects preserve insertion order for non-index string keys,
  and the timestamp keys used here are non-index strings).
* `JSON.parse` is an external primitive of the browser; it is modelled as an
  arbitrary function `parse : String → Option Snapshot`, `none` standing for a
  thrown `SyntaxError`.  Concrete instantiations are supplied in the witnesses.
* A jQuery success callback that throws aborts at the throw site: statements
  after it (including the `setTimeout` that reschedules the history poll) do
  not run.  This is modelled by returning the state reached at the throw site
  with `rescheduled := false`.
* Event traces respect the self-scheduling poll loop: a poll event (response
  or transport failure) can only occur while the loop is alive, i.e. while
  every earlier poll event ended with `rescheduled = true`; poll events after
  a halt are dropped (`stepsFromAux`).  User clicks are never gated.
* The first-load key slice of line 87 uses an inconsistent boolean
  comparator; see `recentOf` for how its "sort" is modelled.
-/

namespace YouPS

/-- A JSON-like value as decoded from the `imap_log` payload.  Only the shapes
the rendered entries actually use are represented: strings, booleans and
nested objects (the `from_` contact record). -/
inductive JVal where
  | str (s : String)
  | bool (b : Bool)
  | obj (fields : List (String × JVal))

mutual

/-- Structural equality of decoded values. -/
def JVal.beq : JVal → JVal → Bool
  | .str a, .str b => a == b
  | .bool a, .bool b => a == b
  | .obj a, .obj b => JVal.beqFields a b
  | .str _, .bool _ => false
  | .str _, .obj _ => false
  | .bool _, .str _ => false
  | .bool _, .obj _ => false
  | .obj _, .str _ => false
  | .obj _, .bool _ => false

/-- Structural equality of binding lists of decoded values. -/
def JVal.beqFields : List (String × JVal) → List (String × JVal) → Bool
  | [], [] => true
  | (k, v) :: r, (k2, v2) :: r2 => k == k2 && JVal.beq v v2 && JVal.beqFields r r2
  | [], _ :: _ => false
  | _ :: _, [] => false

end

mutual

/-- `JVal.beq` decides equality. -/
def JVal.beq_iff : ∀ a b : JVal, JVal.beq a b = true ↔ a = b
  | .str a, .str b => by simp [JVal.beq]
  | .bool a, .bool b => by simp [JVal.beq]
  | .obj a, .obj b => by simp [JVal.beq, JVal.beqFields_iff a b]
  | .str _, .bool _ => by simp [JVal.beq]
  | .str _, .obj _ => by simp [JVal.beq]
  | .bool _, .str _ => by simp [JVal.beq]
  | .bool _, .obj _ => by simp [JVal.beq]
  | .obj _, .str _ => by simp [JVal.beq]
  | .obj _, .bool _ => by simp [JVal.beq]

/-- `JVal.beqFields` decides equality. -/
def JVal.beqFields_iff : ∀ a b : List (String × JVal), JVal.beqFields a b = true ↔ a = b
  | [], [] => by simp [JVal.beqFields]
  | (k, v) :: r, (k2, v2) :: r2 => by
      simp [JVal.beqFields, Bool.and_eq_true, JVal.beq_iff v v2, JVal.beqFields_iff r r2,
        and_assoc]
  | [], _ :: _ => by simp [JVal.beqFields]
  | _ :: _, [] => by simp [JVal.beqFields]

end

instance : DecidableEq JVal := fun a b => decidable_of_iff (JVal.beq a b = true) (JVal.beq_iff a b)

/-- A decoded log entry: a JavaScript object, as its binding list. -/
abbrev Entry := List (String × JVal)

/-- A decoded `LogSnapshot`: the JSON object mapping timestamp keys to
entries, as its binding list in server order. -/
abbrev Snapshot := List (String × Entry)

/-- JavaScript property read `o[k]`: the value of the first binding of `k`
(JS objects have at most one binding per key), `none` for `undefined`. -/
def jlookup {α : Type} : List (String × α) → String → Option α
  | [], _ => none
  | (k', v) :: rest, k => if k' = k then some v else jlookup rest k

/-- `Object.keys(o)`: the keys in insertion order. -/
def keysOf {α : Type} (o : List (String × α)) : List String := o.map Prod.fst

/-- How a `JVal` prints when spliced into a string (JS `String()` coercion). -/
def JVal.display : JVal → String
  | .str s => s
  | .bool b => if b then "true" else "false"
  | .obj _ => "[object Object]"

/-- JavaScript truthiness of a `JVal` (`""` and `false` are falsy). -/
def JVal.truthy : JVal → Bool
  | .str s => !(s == "")
  | .bool b => b
  | .obj _ => true

/-- Modelled from the spec: `String.prototype.format` is called throughout
`history_table.js` but its definition is not under `src/`.  Per the spec
(§4.3), a missing (`undefined`) argument is rendered as the literal string
`"undefined"`, and any other value as its string form. -/
def fmtArg : Option JVal → String
  | none => "undefined"
  | some v => v.display

/-- Sub-field read `v[k]` on a decoded value: only objects have named fields;
reading a named property of a string or boolean yields `undefined`. -/
def jsub (v : JVal) (k : String) : Option JVal :=
  match v with
  | .obj fields => jlookup fields k
  | _ => none

/-- `timestamp.split(",")[0]` — the date part of a timestamp key: the prefix
before the first comma (line 22 / line 20 of history_table.js). -/
def dateColOf (ts : String) : String := ⟨ts.data.takeWhile (fun c => c ≠ ',')⟩

/-- JavaScript string comparison, code unit by code unit: `a < b`. -/
def strLtb : List Char → List Char → Bool
  | [], [] => false
  | [], _ :: _ => true
  | _ :: _, [] => false
  | c :: cs, d :: ds =>
      if c.toNat < d.toNat then true
      else if d.toNat < c.toNat then false
      else strLtb cs ds

/-- JavaScript `a <= b` on strings: not `b < a`. -/
def jsLe (a b : String) : Prop := strLtb b.data a.data = false

instance : DecidableRel jsLe := fun a b => inferInstanceAs (Decidable (_ = false))

theorem strLtb_asymm : ∀ {x y : List Char}, strLtb x y = true → strLtb y x = false := by
  intro x
  induction x with
  | nil =>
      intro y h
      cases y with
      | nil => simp [strLtb] at h
      | cons d ds => rfl
  | cons c cs ih =>
      intro y h
      cases y with
      | nil => simp [strLtb] at h
      | cons d ds =>
          by_cases h1 : c.toNat < d.toNat
          · have h2 : ¬ d.toNat < c.toNat := Nat.not_lt.mpr (Nat.le_of_lt h1)
            simp [strLtb, h1, h2]
          · by_cases h2 : d.toNat < c.toNat
            · simp [strLtb, h1, h2] at h
            · have hrec := ih (y := ds) (by simpa [strLtb, h1, h2] using h)
              simp [strLtb, h1, h2, hrec]

theorem strLtb_trans : ∀ {x y z : List Char},
    strLtb x y = true → strLtb y z = true → strLtb x z = true := by
  intro x y z
  induction x generalizing y z with
  | nil =>
      intro h1 h2
      cases z with
      | cons e es => rfl
      | nil =>
          cases y with
          | nil => simp [strLtb] at h2
          | cons d ds => simp [strLtb] at h2
  | cons c cs ih =>
      intro h1 h2
      cases y with
      | nil => simp [strLtb] at h1
      | cons d ds =>
          cases z with
          | nil => simp [strLtb] at h2
          | cons e es =>
              by_cases hcd : c.toNat < d.toNat
              · by_cases hde : d.toNat < e.toNat
                · simp [strLtb, Nat.lt_trans hcd hde]
                · by_cases hed : e.toNat < d.toNat
                  · simp [strLtb, hde, hed] at h2
                  · have hv : d.toNat = e.toNat :=
                      Nat.le_antisymm (Nat.not_lt.mp hed) (Nat.not_lt.mp hde)
                    simp [strLtb, hv ▸ hcd]
              · by_cases hdc : d.toNat < c.toNat
                · simp [strLtb, hcd, hdc] at h1
                · have hv : c.toNat = d.toNat :=
                    Nat.le_antisymm (Nat.not_lt.mp hdc) (Nat.not_lt.mp hcd)
                  by_cases hde : d.toNat < e.toNat
                  · simp [strLtb, hv ▸ hde]
                  · by_cases hed : e.toNat < d.toNat
                    · simp [strLtb, hde, hed] at h2
                    · have hrec := ih (by simpa [strLtb, hcd, hdc] using h1)
                        (by simpa [strLtb, hde, hed] using h2)
                      have hce : ¬ c.toNat < e.toNat := hv ▸ hde
                      have hec : ¬ e.toNat < c.toNat := hv ▸ hed
                      simp [strLtb, hce, hec, hrec]

theorem strLtb_tri : ∀ x y : List Char, strLtb x y = true ∨ x = y ∨ strLtb y x = true
  | [], [] => Or.inr (Or.inl rfl)
  | [], _ :: _ => Or.inl rfl
  | _ :: _, [] => Or.inr (Or.inr rfl)
  | c :: cs, d :: ds => by
      by_cases h1 : c.toNat < d.toNat
      · exact Or.inl (by simp [strLtb, h1])
      · by_cases h2 : d.toNat < c.toNat
        · exact Or.inr (Or.inr (by simp [strLtb, h2]))
        · have hv : c.toNat = d.toNat :=
            Nat.le_antisymm (Nat.not_lt.mp h2) (Nat.not_lt.mp h1)
          have hc : c = d := Char.ext (UInt32.toNat.inj hv)
          subst hc
          rcases strLtb_tri cs ds with h | h | h
          · exact Or.inl (by simp [strLtb, h])
          · exact Or.inr (Or.inl (by rw [h]))
          · exact Or.inr (Or.inr (by simp [strLtb, h]))

theorem String.data_inj : ∀ {a b : String}, a.data = b.data → a = b
  | ⟨_⟩, ⟨_⟩, rfl => rfl

instance : IsTrans String jsLe :=
  ⟨fun a b c hab hbc => by
    unfold jsLe at *
    cases hca : strLtb c.data a.data with
    | false => rfl
    | true =>
        rcases strLtb_tri b.data a.data with h | h | h
        · rw [h] at hab
          exact absurd hab (by simp)
        · rw [h] at hbc
          rw [hbc] at hca
          exact absurd hca (by simp)
        · have h3 := strLtb_trans hca h
          rw [h3] at hbc
          exact absurd hbc (by simp)⟩

instance : IsTotal String jsLe :=
  ⟨fun a b => by
    unfold jsLe
    cases h : strLtb b.data a.data with
    | false => exact Or.inl rfl
    | true => exact Or.inr (strLtb_asymm h)⟩

/-- Ascending lexicographic sort of key strings: `sorted.sort()` at line 10,
the JS default sort, whose default comparator (compare as UTF-16 strings) is
consistent, so the ascending order is guaranteed by the language — unlike
the boolean comparator of line 87, see `recentOf`. -/
def sortAsc (l : List String) : List String := l.insertionSort jsLe

/-- jQuery `$(xs).not(ys).get()` on plain string arrays: the elements of `xs`
not contained in `ys`, in the order of `xs` (lines 92 and 102). -/
def jqNot (xs ys : List String) : List String := xs.filter (fun x => !(ys.contains x))

/-- `ks.reduce((o, k) => ({...o, [k]: snap[k]}), {})` (lines 88, 93, 104):
the sub-object of `snap` with exactly the keys `ks`, in `ks` order.  (In the
source `ks` is always a subset of `Object.keys(snap)`, so every lookup is
defined; a key absent from `snap` is dropped here.) -/
def pick (snap : Snapshot) (ks : List String) : Snapshot :=
  ks.filterMap (fun k => (jlookup snap k).map (fun e => (k, e)))

/-- The deny-list deleted from every `Message` before the generic panels are
built (lines 30–34). -/
def internalFields : List String := ["trigger", "error", "log", "timestamp", "type"]

/-- Lines 30–34: `delete Message["trigger"]; ... delete Message["type"]`. -/
def strip (m : Entry) : Entry := m.filter (fun kv => !(internalFields.contains kv.1))

/-- `'"{0}", '.format(x)` — one piece of the contact preview (line 45). -/
def quoted (s : String) : String := "\"" ++ s ++ "\", "

/-- Lines 44–45: the contact preview text,
`'"{0}", '.format(Message['from_']['name']) + ...` in fixed order
name, email, organization, geolocation.  When `from_` itself is `undefined`,
`Message['from_']['name']` throws a TypeError — modelled as `none`.
A present `from_` with missing sub-fields renders `"undefined"` pieces. -/
def contactText (m : Entry) : Option String :=
  match jlookup m "from_" with
  | none => none
  | some f =>
      some (quoted (fmtArg (jsub f "name")) ++ quoted (fmtArg (jsub f "email")) ++
            quoted (fmtArg (jsub f "organization")) ++ quoted (fmtArg (jsub f "geolocation")))

/-- Lines 55–60: the generic key/value preview of an entry, always prefixed by
`subject` and `folder` and then every remaining field in enumeration order. -/
def previewItems (m : Entry) : List (String × String) :=
  ("subject", fmtArg (jlookup m "subject")) :: ("folder", fmtArg (jlookup m "folder")) ::
    m.map (fun kv => (kv.1, kv.2.display))

/-- Line 55–61: `preview_msg` as a single string, each item rendered as
`'{0}: "{1}", '.format(key, value)`. -/
def previewText (m : Entry) : String :=
  (previewItems m).foldl (fun acc kv => acc ++ kv.1 ++ ": " ++ quoted kv.2) ""

/-- One rendered table row.  The five columns added by `t.row.add` (lines
21–27) plus the two panel preview texts set afterwards (lines 37–61), which
stay unset (`none`) if the callback throws before reaching them. -/
structure Row where
  key : String
  dateCol : String
  triggerLabel : String
  isError : Bool
  logText : String
  contactPreview : Option String
  entryPreview : Option String
deriving DecidableEq

/-- The row added for key `ts` by `t.row.add` (lines 21–27), built from the
entry before the deletes: column 0 is the date part, column 1 the
`Message["trigger"] || ""` label, column 4 the error label plus
`Message['log']` (string concatenation, so an absent `log` prints
`"undefined"`). -/
def rowOf (ts : String) (m : Entry) : Row :=
  { key := ts
    dateCol := dateColOf ts
    triggerLabel :=
      match jlookup m "trigger" with
      | some v => if v.truthy then v.display else ""
      | none => ""
    isError :=
      match jlookup m "error" with
      | some v => v.truthy
      | none => false
    logText := fmtArg (jlookup m "log")
    contactPreview := none
    entryPreview := none }

/-- The `$.each(sorted, ...)` body of `append_log` (lines 14–62), iterating
entries in sorted key order.  Each iteration adds the row, deletes the
internal fields, then sets the contact preview and the entry preview.  If
`from_` is absent the contact preview line throws: the row of the current
iteration is already in the table, the remaining entries are not processed,
and the second component is `false` (exception escaped `append_log`). -/
def appendLogGo : List (String × Entry) → List Row × Bool
  | [] => ([], true)
  | (ts, m) :: rest =>
    let row0 := rowOf ts m
    let m' := strip m
    match contactText m' with
    | none => ([row0], false)
    | some c =>
      let row := { row0 with contactPreview := some c, entryPreview := some (previewText m') }
      let out := appendLogGo rest
      (row :: out.1, out.2)

/-- `append_log(msg_log)` (lines 4–62, without the final table reorder, which
the caller of this definition applies exactly when the second component is
`true`, since line 65 is skipped when the `$.each` body throws): the rows
added, in ascending key order. -/
def append_log (msg_log : Snapshot) : List Row × Bool :=
  appendLogGo (pick msg_log (sortAsc (keysOf msg_log)))

/-- The descending column-0 order used by
`$("#console-table").DataTable().order([0, 'des']).draw()` (line 65):
`a` may precede `b` iff `b`'s date string is ≤ `a`'s, compared as strings. -/
def rowRel (a b : Row) : Prop := jsLe b.dateCol a.dateCol

instance : DecidableRel rowRel := fun a b => inferInstanceAs (Decidable (jsLe _ _))

instance : IsTotal Row rowRel :=
  ⟨fun a b => IsTotal.total (r := jsLe) b.dateCol a.dateCol⟩

instance : IsTrans Row rowRel :=
  ⟨fun _ _ _ hab hbc => IsTrans.trans (r := jsLe) _ _ _ hbc hab⟩

/-- Line 65: the stable DataTables reorder of all rows, descending by the
column-0 date string. -/
def tableSort (rows : List Row) : List Row := rows.insertionSort rowRel

/-- The response envelope of `/fetch_execution_log` (spec §6). -/
structure Response where
  status : Bool
  imap_log : String
  user_status_msg : String
deriving DecidableEq

/-- The page state of history_table.js: the two backup globals (line 2), the
DataTable rows in display order, whether `#btn-log-load-more` is visible, and
the list of click handlers bound to it (each closure captures `recent_keys`
and `initial_msg_log`, lines 90–95). -/
structure HState where
  log_backup : String
  user_status_backup : String
  table : List Row
  btnVisible : Bool
  handlers : List (List String × Snapshot)
deriving DecidableEq

/-- Page-load state: empty backups (line 2), empty table, hidden button. -/
def initialState : HState :=
  { log_backup := "", user_status_backup := "", table := [], btnVisible := false, handlers := [] }

/-- An event of one page session: a poll tick whose fetch succeeded at the
transport level (carrying the server response), a tick whose fetch failed at
the transport level, or a user click on the load-more affordance. -/
inductive Ev where
  | tick (res : Response)
  | fail
  | click

/-- Observable outcome of one event: the new state, the rows rendered during
the event, whether `JSON.parse(res['imap_log'])` ran, whether `alert` ran,
and whether the poll loop rescheduled itself (`setTimeout` at line 132). -/
structure StepOut where
  st : HState
  rendered : List Row
  parsed : Bool
  alerted : Bool
  rescheduled : Bool
deriving DecidableEq

/-- Line 87: `Object.keys(msg_log).sort(function(a, b) {return a>b;}).slice(-10)`.
The comparator returns a boolean (coerced to 1 or 0, never negative), which
is an inconsistent comparison function: ECMAScript leaves the resulting
order implementation-defined, and the shipped engines' sorts (V8's TimSort
binary insertion never observes a negative comparison) hand the array back
in its existing order.  The "sort" is therefore modelled as the identity,
and the slice takes the last 10 keys in snapshot insertion order (all of
them when there are at most 10) — not the 10 greatest keys. -/
def recentOf (S : Snapshot) : List String :=
  (keysOf S).drop ((keysOf S).length - 10)

/-- Line 88: the capped first-load batch. -/
def firstBatch (S : Snapshot) : List Row × Bool := append_log (pick S (recentOf S))

/-- Line 102: `$(Object.keys(msg_log)).not(Object.keys(old_log)).get()`. -/
def deltaKeys (S B : Snapshot) : List String := jqNot (keysOf S) (keysOf B)

/-- Line 104: the batch of entries new relative to the decoded backup. -/
def deltaBatch (S B : Snapshot) : List Row × Bool := append_log (pick S (deltaKeys S B))

/-- Line 92: `$(Object.keys(initial_msg_log)).not(recent_keys).get()`. -/
def restKeys (ini : Snapshot) (recent : List String) : List String := jqNot (keysOf ini) recent

/-- Line 93: the load-more batch of one bound handler. -/
def restBatch (ini : Snapshot) (recent : List String) : List Row × Bool :=
  append_log (pick ini (restKeys ini recent))

/-- Firing the bound `#btn-log-load-more` handlers in binding order
(lines 91–95).  Each handler renders the not-yet-shown remainder of its
captured first snapshot and then hides the button.  If its `append_log`
throws, the rows added so far stay (without the line-65 reorder), the
remaining handlers are skipped and the hide is skipped. -/
def runHandlers : HState → List (List String × Snapshot) → HState × List Row
  | st, [] => (st, [])
  | st, (recent_keys, ini) :: hs =>
    let out := restBatch ini recent_keys
    if out.2 then
      let st' := { st with table := tableSort (st.table ++ out.1), btnVisible := false }
      let next := runHandlers st' hs
      (next.1, out.1 ++ next.2)
    else ({ st with table := st.table ++ out.1 }, out.1)

/-- One event of the history view, following `fetch_log`
(history_table.js lines 71–137).  `parse` is the browser's `JSON.parse`. -/
def historyStep (parse : String → Option Snapshot) (st : HState) : Ev → StepOut
  | .fail =>
      -- lines 134–136: the fail handler alerts; nothing reschedules.
      ⟨st, [], false, true, false⟩
  | .click =>
      if st.btnVisible then
        let out := runHandlers st st.handlers
        ⟨out.1, out.2, false, false, false⟩
      else ⟨st, [], false, false, false⟩
  | .tick res =>
      if res.status then
        if st.log_backup ≠ res.imap_log then
          match parse res.imap_log with
          | none =>
              -- line 83 throws: the callback aborts before lines 113–126 and 132.
              ⟨st, [], true, false, false⟩
          | some msg_log =>
              if st.log_backup = "" then
                -- lines 85–96: first load, capped to the 10 greatest keys.
                let out := firstBatch msg_log
                if out.2 then
                  ⟨{ log_backup := res.imap_log,
                     user_status_backup := res.user_status_msg,
                     table := tableSort (st.table ++ out.1),
                     btnVisible := true,
                     handlers := st.handlers ++ [(recentOf msg_log, msg_log)] },
                   out.1, true, false, true⟩
                else
                  ⟨{ st with table := st.table ++ out.1 }, out.1, true, false, false⟩
              else
                -- lines 98–105: diff against the decoded previous payload.
                match parse st.log_backup with
                | none => ⟨st, [], true, false, false⟩
                | some old_log =>
                    let out := deltaBatch msg_log old_log
                    if out.2 then
                      let st' := { st with log_backup := res.imap_log, user_status_backup := res.user_status_msg, table := tableSort (st.table ++ out.1) }
                      ⟨st', out.1, true, false, true⟩
                    else
                      ⟨{ st with table := st.table ++ out.1 }, out.1, true, false, false⟩
        else
          -- line 82 guard false: no parse, no diff, no render; lines 113–126 still run.
          ⟨{ st with log_backup := res.imap_log, user_status_backup := res.user_status_msg },
           [], false, false, true⟩
      else
        -- lines 128–130: notify(res, false), then line 132 reschedules.
        ⟨st, [], false, false, true⟩

/-- Whether an event is delivered by the self-scheduling poll loop (a
response or a transport failure of a fetch it issued), as opposed to a user
click on the load-more button. -/
def Ev.isPoll : Ev → Bool
  | .tick _ => true
  | .fail => true
  | .click => false

/-- The outcomes of a sequence of events started in state `st`, with the
poll loop alive iff `alive`.  `fetch_log` reschedules itself only at
line 132, inside a success callback that ran to completion, so once a poll
event ends with `rescheduled = false` the loop is dead: later poll events
cannot occur and are dropped from the trace; user clicks remain possible. -/
def stepsFromAux (parse : String → Option Snapshot) :
    Bool → HState → List Ev → List StepOut
  | _, _, [] => []
  | alive, st, e :: es =>
    if e.isPoll && !alive then stepsFromAux parse alive st es
    else
      let o := historyStep parse st e
      o :: stepsFromAux parse (if e.isPoll then o.rescheduled else alive) o.st es

/-- The outcomes of a page session: at page load the poll loop is alive
(`fetch_log` is invoked once when the page initialises). -/
def stepsFrom (parse : String → Option Snapshot) (st : HState) (tr : List Ev) :
    List StepOut :=
  stepsFromAux parse true st tr

/-- The state after a sequence of events, with the same halting rule. -/
def runTraceAux (parse : String → Option Snapshot) : Bool → HState → List Ev → HState
  | _, st, [] => st
  | alive, st, e :: es =>
    if e.isPoll && !alive then runTraceAux parse alive st es
    else
      let o := historyStep parse st e
      runTraceAux parse (if e.isPoll then o.rescheduled else alive) o.st es

/-- The state after a page session. -/
def runTrace (parse : String → Option Snapshot) (st : HState) (tr : List Ev) : HState :=
  runTraceAux parse true st tr

/-- All timestamp keys rendered over a sequence of events, in render order. -/
def renderedHistory (parse : String → Option Snapshot) (st : HState) (tr : List Ev) : List String :=
  (stepsFrom parse st tr).flatMap (fun o => o.rendered.map Row.key)

/-- Outcome of one fetch at the transport level. -/
inductive FetchOutcome where
  | success (res : Response)
  | transportFailure

/-- The editor view's state: its own `log_backup` (login_imap.js line 169)
and the `#console` contents (each `<p>` text with its error flag), most
recent first. -/
structure EState where
  log_backup : String
  console : List (String × Bool)
deriving DecidableEq

/-- Observable outcome of one editor-view poll tick. -/
structure EStepOut where
  st : EState
  alerted : Bool
  rescheduled : Bool
deriving DecidableEq

/-- One tick of the editor view's `fetch_log` (login_imap.js lines 328–352).
`setTimeout(fetch_log, 5 * 1000)` at line 351 sits outside the `$.post`
callback, so the next tick is scheduled when `fetch_log` runs — before and
regardless of the response; there is no `.fail` handler and no `alert`.  On a
changed payload the `#console` is cleared and the raw payload string is
shown via the local `append_log` (lines 489–508), which shows nothing for an
empty string (`if(!log) return`). -/
def editorFetchLog (st : EState) (o : FetchOutcome) : EStepOut :=
  match o with
  | .transportFailure => ⟨st, false, true⟩
  | .success res =>
      if res.status then
        if st.log_backup ≠ res.imap_log then
          ⟨{ log_backup := res.imap_log,
             console := if res.imap_log = "" then [] else [(res.imap_log, false)] },
           false, true⟩
        else ⟨{ st with log_backup := res.imap_log }, false, true⟩
      else ⟨st, false, true⟩

/-- `from_`-presence of an entry: the contact preview of line 45 only
succeeds when the entry has a `from_` field. -/
def hasFrom (m : Entry) : Bool := (jlookup m "from_").isSome

/-- Well-formedness of a decoded snapshot: distinct keys (guaranteed for a
decoded JSON object) and every entry carries `from_` (so that rendering a
batch completes, cf. line 45). -/
def wfSnap (s : Snapshot) : Bool :=
  decide (keysOf s).Nodup && s.all (fun kv => hasFrom kv.2)


/-! ### Basic lemmas about the JavaScript object primitives -/

@[simp] theorem jlookup_nil {α : Type} (k : String) :
    jlookup ([] : List (String × α)) k = none := rfl

@[simp] theorem jlookup_cons {α : Type} (k' : String) (v : α) (l : List (String × α))
    (k : String) : jlookup ((k', v) :: l) k = if k' = k then some v else jlookup l k := rfl

@[simp] theorem keysOf_nil {α : Type} : keysOf ([] : List (String × α)) = [] := rfl

@[simp] theorem keysOf_cons {α : Type} (p : String × α) (l : List (String × α)) :
    keysOf (p :: l) = p.1 :: keysOf l := rfl

theorem jlookup_isSome_iff {α : Type} (l : List (String × α)) (k : String) :
    (jlookup l k).isSome ↔ k ∈ keysOf l := by
  induction l with
  | nil => simp
  | cons p rest ih =>
      obtain ⟨k', v⟩ := p
      by_cases h : k' = k
      · subst h
        simp
      · simp only [jlookup_cons, if_neg h, keysOf_cons, List.mem_cons]
        rw [ih]
        have : ¬ k = k' := fun he => h he.symm
        simp [this]

theorem jlookup_mem {α : Type} {l : List (String × α)} {k : String} {v : α}
    (h : jlookup l k = some v) : (k, v) ∈ l := by
  induction l with
  | nil => simp at h
  | cons p rest ih =>
      obtain ⟨k', w⟩ := p
      by_cases hk : k' = k
      · subst hk
        rw [jlookup_cons, if_pos rfl] at h
        injection h with hw
        subst hw
        exact List.mem_cons_self _ _
      · rw [jlookup_cons, if_neg hk] at h
        exact List.mem_cons_of_mem _ (ih h)

theorem jlookup_strip (m : Entry) (k : String)
    (h : internalFields.contains k = false) : jlookup (strip m) k = jlookup m k := by
  induction m with
  | nil => rfl
  | cons p rest ih =>
      obtain ⟨k', v⟩ := p
      rw [strip, List.filter_cons]
      by_cases hin : (!(internalFields.contains k')) = true
      · rw [if_pos hin]
        by_cases hk : k' = k
        · subst hk
          simp
        · rw [jlookup_cons, jlookup_cons, if_neg hk, if_neg hk]
          exact ih
      · rw [if_neg hin]
        have hk : k' ≠ k := by
          intro he
          subst he
          rw [h] at hin
          simp at hin
        rw [jlookup_cons, if_neg hk]
        exact ih

@[simp] theorem pick_nil (snap : Snapshot) : pick snap [] = [] := rfl

theorem pick_cons_none (snap : Snapshot) (k : String) (ks : List String)
    (h : jlookup snap k = none) : pick snap (k :: ks) = pick snap ks := by
  simp [pick, List.filterMap_cons, h]

theorem pick_cons_some (snap : Snapshot) (k : String) (ks : List String) (e : Entry)
    (h : jlookup snap k = some e) : pick snap (k :: ks) = (k, e) :: pick snap ks := by
  simp [pick, List.filterMap_cons, h]

theorem keysOf_pick (snap : Snapshot) (ks : List String)
    (h : ∀ k ∈ ks, k ∈ keysOf snap) : keysOf (pick snap ks) = ks := by
  induction ks with
  | nil => rfl
  | cons k rest ih =>
      obtain ⟨e, he⟩ := Option.isSome_iff_exists.mp
        ((jlookup_isSome_iff snap k).mpr (h k (List.mem_cons_self k rest)))
      rw [pick_cons_some snap k rest e he, keysOf_cons]
      exact congrArg (k :: ·) (ih fun a ha => h a (List.mem_cons_of_mem _ ha))

theorem jlookup_pick (snap : Snapshot) (ks : List String) (k : String)
    (hk : k ∈ ks) (hs : k ∈ keysOf snap) :
    jlookup (pick snap ks) k = jlookup snap k := by
  induction ks with
  | nil => cases hk
  | cons k' rest ih =>
      by_cases he : k' = k
      · subst he
        obtain ⟨e, hev⟩ := Option.isSome_iff_exists.mp ((jlookup_isSome_iff snap k').mpr hs)
        rw [pick_cons_some snap k' rest e hev, jlookup_cons, if_pos rfl, hev]
      · have hr : k ∈ rest := by
          rcases List.mem_cons.mp hk with h1 | h2
          · exact absurd h1.symm he
          · exact h2
        cases hv : jlookup snap k' with
        | none => rw [pick_cons_none snap k' rest hv]; exact ih hr
        | some e => rw [pick_cons_some snap k' rest e hv, jlookup_cons, if_neg he]; exact ih hr

theorem mem_pick {snap : Snapshot} {ks : List String} {p : String × Entry}
    (h : p ∈ pick snap ks) : p.1 ∈ ks ∧ jlookup snap p.1 = some p.2 := by
  induction ks with
  | nil => simp at h
  | cons k rest ih =>
      cases hv : jlookup snap k with
      | none =>
          rw [pick_cons_none snap k rest hv] at h
          obtain ⟨h1, h2⟩ := ih h
          exact ⟨List.mem_cons_of_mem _ h1, h2⟩
      | some e =>
          rw [pick_cons_some snap k rest e hv] at h
          rcases List.mem_cons.mp h with he | hr
          · subst he
            exact ⟨List.mem_cons_self _ _, hv⟩
          · obtain ⟨h1, h2⟩ := ih hr
            exact ⟨List.mem_cons_of_mem _ h1, h2⟩

/-! ### Sorting wrappers -/

theorem sortAsc_perm (l : List String) : (sortAsc l).Perm l :=
  List.perm_insertionSort _ l

theorem sortAsc_sorted (l : List String) : (sortAsc l).Sorted jsLe :=
  List.sorted_insertionSort _ l

theorem sortAsc_nodup {l : List String} (h : l.Nodup) : (sortAsc l).Nodup :=
  ((sortAsc_perm l).nodup_iff).mpr h

theorem sortAsc_mem {l : List String} {a : String} : a ∈ sortAsc l ↔ a ∈ l :=
  (sortAsc_perm l).mem_iff

theorem sortAsc_of_sorted {l : List String} (h : l.Sorted jsLe) : sortAsc l = l :=
  List.Sorted.insertionSort_eq h

theorem tableSort_sorted (rows : List Row) : (tableSort rows).Pairwise rowRel :=
  List.sorted_insertionSort rowRel rows

theorem tableSort_perm (rows : List Row) : (tableSort rows).Perm rows :=
  List.perm_insertionSort rowRel rows

theorem sublist_tableSort {c rows : List Row} (hc : c.Pairwise rowRel)
    (hs : c.Sublist rows) : c.Sublist (tableSort rows) :=
  List.sublist_insertionSort hc hs

/-! ### The batch renderer on a well-formed sub-snapshot -/

theorem wfSnap_nodup {s : Snapshot} (h : wfSnap s = true) : (keysOf s).Nodup := by
  have := (Bool.and_eq_true _ _).mp h
  exact of_decide_eq_true this.1

theorem wfSnap_hasFrom {s : Snapshot} (h : wfSnap s = true) :
    ∀ p ∈ s, hasFrom p.2 = true := by
  have := (Bool.and_eq_true _ _).mp h
  intro p hp
  exact List.all_eq_true.mp this.2 p hp

theorem contactText_strip_of_hasFrom {m : Entry} (h : hasFrom m = true) :
    (contactText (strip m)).isSome := by
  have hf : internalFields.contains "from_" = false := by decide
  obtain ⟨f, hf'⟩ := Option.isSome_iff_exists.mp h
  simp [contactText, jlookup_strip m "from_" hf, hf']

theorem appendLogGo_ok (l : List (String × Entry)) (h : ∀ p ∈ l, hasFrom p.2 = true) :
    (appendLogGo l).2 = true ∧ (appendLogGo l).1.map Row.key = l.map Prod.fst := by
  induction l with
  | nil => simp [appendLogGo]
  | cons p rest ih =>
      obtain ⟨ts, m⟩ := p
      have hm : hasFrom m = true := h (ts, m) (List.mem_cons_self _ _)
      obtain ⟨c, hc⟩ := Option.isSome_iff_exists.mp (contactText_strip_of_hasFrom hm)
      have ih' := ih fun q hq => h q (List.mem_cons_of_mem _ hq)
      simp [appendLogGo, hc, rowOf, ih'.1, ih'.2]

theorem append_log_spec (S : Snapshot) (ks : List String)
    (hwf : wfSnap S = true) (hsub : ∀ k ∈ ks, k ∈ keysOf S) :
    (append_log (pick S ks)).2 = true ∧
      (append_log (pick S ks)).1.map Row.key = sortAsc ks := by
  have hkeys : keysOf (pick S ks) = ks := keysOf_pick S ks hsub
  have hsub2 : ∀ k ∈ sortAsc ks, k ∈ keysOf (pick S ks) := by
    intro k hk
    rw [hkeys]
    exact sortAsc_mem.mp hk
  have hfrom : ∀ p ∈ pick (pick S ks) (sortAsc ks), hasFrom p.2 = true := by
    intro p hp
    obtain ⟨hp1, hp2⟩ := mem_pick hp
    have hmem : p.1 ∈ ks := sortAsc_mem.mp hp1
    rw [jlookup_pick S ks p.1 hmem (hsub p.1 hmem)] at hp2
    exact wfSnap_hasFrom hwf (p.1, p.2) (jlookup_mem hp2)
  have hgo := appendLogGo_ok _ hfrom
  have hback : append_log (pick S ks) = appendLogGo (pick (pick S ks) (sortAsc ks)) := by
    simp only [append_log, hkeys]
  refine ⟨by rw [hback]; exact hgo.1, ?_⟩
  rw [hback, hgo.2]
  exact keysOf_pick _ _ hsub2

/-! ### The sets of keys each batch renders -/

theorem mem_jqNot {xs ys : List String} {k : String} :
    k ∈ jqNot xs ys ↔ k ∈ xs ∧ k ∉ ys := by
  simp [jqNot]

theorem jqNot_nodup {xs ys : List String} (h : xs.Nodup) : (jqNot xs ys).Nodup :=
  h.filter _

theorem jqNot_sub {xs ys : List String} : ∀ k ∈ jqNot xs ys, k ∈ xs :=
  fun _ hk => (mem_jqNot.mp hk).1

theorem recentOf_sub (S : Snapshot) : ∀ k ∈ recentOf S, k ∈ keysOf S := by
  intro k hk
  exact List.mem_of_mem_drop hk

theorem recentOf_nodup {S : Snapshot} (h : (keysOf S).Nodup) : (recentOf S).Nodup :=
  (List.drop_sublist _ _).nodup h

theorem firstBatch_spec {S : Snapshot} (hwf : wfSnap S = true) :
    (firstBatch S).2 = true ∧ (firstBatch S).1.map Row.key = sortAsc (recentOf S) :=
  append_log_spec S (recentOf S) hwf (recentOf_sub S)

theorem deltaBatch_spec {S : Snapshot} (B : Snapshot) (hwf : wfSnap S = true) :
    (deltaBatch S B).2 = true ∧ (deltaBatch S B).1.map Row.key = sortAsc (deltaKeys S B) :=
  append_log_spec S (deltaKeys S B) hwf (fun k hk => jqNot_sub k hk)

theorem restBatch_spec {ini : Snapshot} (recent : List String) (hwf : wfSnap ini = true) :
    (restBatch ini recent).2 = true ∧
      (restBatch ini recent).1.map Row.key = sortAsc (restKeys ini recent) :=
  append_log_spec ini (restKeys ini recent) hwf (fun k hk => jqNot_sub k hk)

/-! ### Unfolding lemmas for the poll-tick step function -/

theorem historyStep_fail (parse : String → Option Snapshot) (st : HState) :
    historyStep parse st .fail = ⟨st, [], false, true, false⟩ := rfl

theorem historyStep_click_hidden (parse : String → Option Snapshot) (st : HState)
    (h : st.btnVisible = false) :
    historyStep parse st .click = ⟨st, [], false, false, false⟩ := by
  simp [historyStep, h]

theorem historyStep_click_visible (parse : String → Option Snapshot) (st : HState)
    (h : st.btnVisible = true) :
    historyStep parse st .click =
      ⟨(runHandlers st st.handlers).1, (runHandlers st st.handlers).2, false, false, false⟩ := by
  simp [historyStep, h]

theorem historyStep_tick_appFailure (parse : String → Option Snapshot) (st : HState)
    (res : Response) (h : res.status = false) :
    historyStep parse st (.tick res) = ⟨st, [], false, false, true⟩ := by
  simp [historyStep, h]

theorem historyStep_tick_skip (parse : String → Option Snapshot) (st : HState)
    (res : Response) (hs : res.status = true) (he : st.log_backup = res.imap_log) :
    historyStep parse st (.tick res) =
      ⟨{ st with log_backup := res.imap_log, user_status_backup := res.user_status_msg },
       [], false, false, true⟩ := by
  simp [historyStep, hs, he]

theorem historyStep_tick_noParse (parse : String → Option Snapshot) (st : HState)
    (res : Response) (hs : res.status = true) (hne : st.log_backup ≠ res.imap_log)
    (hp : parse res.imap_log = none) :
    historyStep parse st (.tick res) = ⟨st, [], true, false, false⟩ := by
  simp [historyStep, hs, hne, hp]

theorem historyStep_tick_first (parse : String → Option Snapshot) (st : HState)
    (res : Response) (S : Snapshot) (hs : res.status = true)
    (hne : st.log_backup ≠ res.imap_log) (hb : st.log_backup = "")
    (hp : parse res.imap_log = some S) (hok : (firstBatch S).2 = true) :
    historyStep parse st (.tick res) =
      ⟨{ log_backup := res.imap_log,
         user_status_backup := res.user_status_msg,
         table := tableSort (st.table ++ (firstBatch S).1),
         btnVisible := true,
         handlers := st.handlers ++ [(recentOf S, S)] },
       (firstBatch S).1, true, false, true⟩ := by
  have hne2 : ¬ ("" = res.imap_log) := fun h2 => hne (hb.trans h2)
  simp [historyStep, hs, hne, hb, hp, hok, hne2]

theorem historyStep_tick_first_crash (parse : String → Option Snapshot) (st : HState)
    (res : Response) (S : Snapshot) (hs : res.status = true)
    (hne : st.log_backup ≠ res.imap_log) (hb : st.log_backup = "")
    (hp : parse res.imap_log = some S) (hok : (firstBatch S).2 = false) :
    historyStep parse st (.tick res) =
      ⟨{ st with table := st.table ++ (firstBatch S).1 }, (firstBatch S).1, true, false, false⟩ := by
  have hne2 : ¬ ("" = res.imap_log) := fun h2 => hne (hb.trans h2)
  simp [historyStep, hs, hne, hb, hp, hok, hne2]

theorem historyStep_tick_delta (parse : String → Option Snapshot) (st : HState)
    (res : Response) (S B : Snapshot) (hs : res.status = true)
    (hne : st.log_backup ≠ res.imap_log) (hb : st.log_backup ≠ "")
    (hp : parse res.imap_log = some S) (hpb : parse st.log_backup = some B)
    (hok : (deltaBatch S B).2 = true) :
    historyStep parse st (.tick res) =
      ⟨{ st with log_backup := res.imap_log, user_status_backup := res.user_status_msg, table := tableSort (st.table ++ (deltaBatch S B).1) },
       (deltaBatch S B).1, true, false, true⟩ := by
  simp [historyStep, hs, hne, hb, hp, hpb, hok]

theorem historyStep_tick_delta_crash (parse : String → Option Snapshot) (st : HState)
    (res : Response) (S B : Snapshot) (hs : res.status = true)
    (hne : st.log_backup ≠ res.imap_log) (hb : st.log_backup ≠ "")
    (hp : parse res.imap_log = some S) (hpb : parse st.log_backup = some B)
    (hok : (deltaBatch S B).2 = false) :
    historyStep parse st (.tick res) =
      ⟨{ st with table := st.table ++ (deltaBatch S B).1 }, (deltaBatch S B).1, true, false, false⟩ := by
  simp [historyStep, hs, hne, hb, hp, hpb, hok]

theorem historyStep_tick_noParseBackup (parse : String → Option Snapshot) (st : HState)
    (res : Response) (S : Snapshot) (hs : res.status = true)
    (hne : st.log_backup ≠ res.imap_log) (hb : st.log_backup ≠ "")
    (hp : parse res.imap_log = some S) (hpb : parse st.log_backup = none) :
    historyStep parse st (.tick res) = ⟨st, [], true, false, false⟩ := by
  simp [historyStep, hs, hne, hb, hp, hpb]

/-! ### Concrete fixtures for witnesses and counterexamples -/

/-- A minimal well-formed entry (has `from_` with only a name). -/
def mkEntry (nm : String) : Entry :=
  [("from_", JVal.obj [("name", JVal.str nm)]), ("log", JVal.str "done"),
   ("trigger", JVal.str "arrive"), ("subject", JVal.str "hi")]

def tsA : String := "1/1/2024, 1:00:00 PM"

def tsB : String := "1/1/2024, 2:00:00 PM"

def snapA : Snapshot := [(tsA, mkEntry "a")]

def snapAB : Snapshot := [(tsA, mkEntry "a"), (tsB, mkEntry "b")]

def entryNoFrom : Entry := [("log", JVal.str "ran")]

def snapNoFrom : Snapshot := [(tsA, entryNoFrom)]

def tsOld : String := "12/31/2023, 11:59:59 PM"

def tsNew : String := "1/2/2024, 9:00:00 AM"

def snapDates : Snapshot := [(tsOld, mkEntry "o"), (tsNew, mkEntry "n")]

/-- Eleven-entry first snapshot (more than the pagination cap of 10). -/
def snapBig : Snapshot :=
  (List.range 11).map (fun i =>
    ("1/1/2024, 10:00:" ++ (if i < 9 then "0" else "") ++ toString (i + 1) ++ " AM",
     mkEntry (toString i)))

/-- The lexicographically greatest key of `snapDesc` (position 2: `'9' > '1'`). -/
def tsDescBig : String := "1/9/2024, 1:00:00 PM"

/-- A key of `snapDesc` smaller than `tsDescBig`. -/
def tsDescSmall : String := "1/1/2024, 10:00:01 AM"

/-- Eleven well-formed entries whose insertion order starts with the
lexicographically greatest key, followed by ten smaller keys: the line-87
slice drops the greatest key. -/
def snapDesc : Snapshot :=
  (tsDescBig, mkEntry "big") ::
    (List.range 10).map (fun i =>
      ("1/1/2024, 10:00:" ++ (if i < 9 then "0" else "") ++ toString (i + 1) ++ " AM",
       mkEntry (toString i)))

/-- The key of the one `from_`-less entry of `snapMix`. -/
def tsMixN : String := "1/1/2024, 9:00:00 AM"

/-- Eleven entries: the first one in insertion order lacks `from_`, the other
ten are well formed.  The line-87 slice keeps the last ten insertion-order
keys, so the first load completes and the load-more handler captures exactly
the `from_`-less remainder. -/
def snapMix : Snapshot :=
  (tsMixN, entryNoFrom) ::
    (List.range 10).map (fun i =>
      ("1/1/2024, 10:00:" ++ (if i < 9 then "0" else "") ++ toString (i + 1) ++ " AM",
       mkEntry (toString i)))

/-- A concrete `JSON.parse` for the test payloads; every other string
(including `""`, which always throws in `JSON.parse`) fails to decode. -/
def parseW : String → Option Snapshot := fun s =>
  if s = "p1" then some snapA
  else if s = "p2" then some snapAB
  else if s = "pbig" then some snapBig
  else if s = "pnofrom" then some snapNoFrom
  else if s = "pdates" then some snapDates
  else if s = "pdesc" then some snapDesc
  else if s = "pmix" then some snapMix
  else none

def r1W : Response := ⟨true, "p1", ""⟩

def r2W : Response := ⟨true, "p2", ""⟩

def rBigW : Response := ⟨true, "pbig", ""⟩

def rNoFromW : Response := ⟨true, "pnofrom", ""⟩

def rDatesW : Response := ⟨true, "pdates", ""⟩

def rEmptyW : Response := ⟨true, "", ""⟩

def rBadW : Response := ⟨true, "garbage", ""⟩

def rDescW : Response := ⟨true, "pdesc", ""⟩

def rMixW : Response := ⟨true, "pmix", ""⟩

/-- A mid-session state whose accepted baseline is the payload `"p1"`. -/
def stW : HState :=
  { log_backup := "p1", user_status_backup := "", table := [], btnVisible := false,
    handlers := [] }

/-! ### C2 — the delta of a non-first tick is an order-independent set difference -/

/-- C2 (confirmed): for every snapshot `S` and key set `K`, the delta computed
by `jqNot` (line 102) is exactly the set difference `keys(S)` minus `K`:
membership-wise, as finsets, and invariantly under re-enumeration of either
input.  The last conjunct ties this to the tick: a successful non-first poll
tick with decodable payloads renders exactly the keys `jqNot (keys S) (keys B)`
(in ascending render order).  The source builds only fresh arrays
(`Object.keys`, `$(...).not(...).get()`, a `reduce` into a fresh object), so
neither input is mutated — which this pure embedding reflects. -/
theorem C2_delta_exact_set_difference :
    (∀ (S : Snapshot) (K : List String) (k : String),
        k ∈ jqNot (keysOf S) K ↔ k ∈ keysOf S ∧ k ∉ K) ∧
    (∀ (S : Snapshot) (K : List String),
        (jqNot (keysOf S) K).toFinset = (keysOf S).toFinset \ K.toFinset) ∧
    (∀ (S S' : Snapshot) (K K' : List String),
        (keysOf S).Perm (keysOf S') → (∀ k, k ∈ K ↔ k ∈ K') →
        (jqNot (keysOf S) K).Perm (jqNot (keysOf S') K')) ∧
    (∀ (parse : String → Option Snapshot) (st : HState) (res : Response) (S B : Snapshot),
        res.status = true → st.log_backup ≠ res.imap_log → st.log_backup ≠ "" →
        parse res.imap_log = some S → parse st.log_backup = some B → wfSnap S = true →
        (historyStep parse st (.tick res)).rendered.map Row.key = sortAsc (deltaKeys S B)) := by
  refine ⟨?_, ?_, ?_, ?_⟩
  · intro S K k
    exact mem_jqNot
  · intro S K
    ext k
    simp [mem_jqNot]
  · intro S S' K K' hS hK
    have hstep : jqNot (keysOf S') K' = jqNot (keysOf S') K := by
      unfold jqNot
      refine List.filter_congr ?_
      intro x _
      have : (K'.contains x) = (K.contains x) := by
        simp only [List.contains, List.elem_eq_mem]
        exact decide_eq_decide.mpr (hK x).symm
      rw [this]
    rw [hstep]
    exact hS.filter _
  · intro parse st res S B hs hne hb hp hpb hwf
    have hd := deltaBatch_spec B hwf
    rw [historyStep_tick_delta parse st res S B hs hne hb hp hpb hd.1]
    exact hd.2

/-- Witness for C2: the conjuncts applied at concrete inputs. -/
theorem C2_delta_exact_set_difference_witness :
    (tsB ∈ jqNot (keysOf snapAB) [tsA] ↔ tsB ∈ keysOf snapAB ∧ tsB ∉ [tsA]) ∧
    (historyStep parseW stW (.tick r2W)).rendered.map Row.key =
      sortAsc (deltaKeys snapAB snapA) :=
  ⟨C2_delta_exact_set_difference.1 snapAB [tsA] tsB,
   C2_delta_exact_set_difference.2.2.2 parseW stW r2W snapAB snapA rfl (by decide) (by decide)
     (by decide) (by decide) (by decide)⟩

/-! ### C6 — behaviour of the two poll loops on transport failure -/

/-- C6 counterexample: on a transport-level fetch failure, the 5-second
editor-view poll loop (login_imap.js `fetch_log`) surfaces no warning and has
already rescheduled itself — its `setTimeout` at line 351 runs before the
response and it installs no fail handler — contradicting the claim that both
loops alert and stop. -/
theorem C6_counterexample_editor_loop :
    ¬ ((editorFetchLog ⟨"", []⟩ .transportFailure).alerted = true ∧
       (editorFetchLog ⟨"", []⟩ .transportFailure).rescheduled = false) := by
  decide

/-- C6 (corrected): on transport failure the 2-second history-view loop
alerts ("Please refresh the page!") and does not reschedule, halting; the
5-second editor-view loop surfaces no warning and always reschedules
(unconditionally, before the response arrives).  Neither loop touches its
state on a transport failure. -/
theorem C6_amended_transport_failure :
    (∀ (parse : String → Option Snapshot) (st : HState),
        (historyStep parse st .fail).alerted = true ∧
        (historyStep parse st .fail).rescheduled = false ∧
        (historyStep parse st .fail).st = st) ∧
    (∀ est : EState,
        (editorFetchLog est .transportFailure).alerted = false ∧
        (editorFetchLog est .transportFailure).rescheduled = true ∧
        (editorFetchLog est .transportFailure).st = est) :=
  ⟨fun _ _ => ⟨rfl, rfl, rfl⟩, fun _ => ⟨rfl, rfl, rfl⟩⟩

/-! ### C7 — a decode failure crashes the tick instead of degrading -/

/-- C7 (code_bug): at the failing input — a status-true response whose
`imap_log` does not decode, received when the baseline differs — the code
throws inside the success callback at line 83 (`JSON.parse`): nothing is
rendered (that much agrees with "no new data"), but no diagnostic is
surfaced, the baseline is not advanced, and the `setTimeout` at line 132
never runs, so the poll loop halts; there is no handling distinct from the
`status:false` path because there is no handling at all. -/
theorem C7_decode_failure_crashes_tick :
    rBadW.status = true ∧ parseW rBadW.imap_log = none ∧
    historyStep parseW stW (.tick rBadW) = ⟨stW, [], true, false, false⟩ := by
  decide

/-! ### C8 — contact preview and missing `from_` -/

/-- C8 counterexample: an entry whose `from_` is absent does not degrade to a
placeholder: the contact-preview step throws, so the batch render aborts — in
a two-entry snapshot only the first (crashing) entry's row is added and the
second entry is never rendered, refuting "degrades gracefully rather than
failing the rendering of the whole batch". -/
theorem C8_counterexample_missing_from :
    (append_log [(tsA, entryNoFrom), (tsB, mkEntry "b")]).2 = false ∧
    (append_log [(tsA, entryNoFrom), (tsB, mkEntry "b")]).1.map Row.key = [tsA] := by
  decide

/-- C8 (corrected): the contact preview is built unconditionally (there is no
presence check in the source).  When `from_` is present it is the fixed-order
concatenation name, email, organization, geolocation, and a missing
sub-field renders the literal string "undefined" — that part degrades
gracefully and the batch completes whenever every entry has `from_`.  But
when `from_` itself is absent, the preview step throws a TypeError and the
rest of the batch is not rendered. -/
theorem C8_amended_contact_preview :
    (∀ (m : Entry) (f : JVal), jlookup m "from_" = some f →
        contactText m = some (quoted (fmtArg (jsub f "name")) ++
          quoted (fmtArg (jsub f "email")) ++ quoted (fmtArg (jsub f "organization")) ++
          quoted (fmtArg (jsub f "geolocation"))) ∧
        (jsub f "name" = none → fmtArg (jsub f "name") = "undefined")) ∧
    (∀ l : List (String × Entry), (∀ p ∈ l, hasFrom p.2 = true) →
        (appendLogGo l).2 = true) ∧
    (∀ (ts : String) (m : Entry) (rest : List (String × Entry)), hasFrom m = false →
        appendLogGo ((ts, m) :: rest) = ([rowOf ts m], false)) := by
  refine ⟨?_, ?_, ?_⟩
  · intro m f h
    refine ⟨by simp [contactText, h], ?_⟩
    intro hn
    simp [fmtArg, hn]
  · intro l h
    exact (appendLogGo_ok l h).1
  · intro ts m rest h
    have hnone : jlookup m "from_" = none := by
      cases hv : jlookup m "from_" with
      | none => rfl
      | some f => rw [hasFrom, hv] at h; simp at h
    have hnone' : jlookup (strip m) "from_" = none := by
      rw [jlookup_strip m "from_" (by decide)]
      exact hnone
    have hct : contactText (strip m) = none := by
      simp [contactText, hnone']
    simp [appendLogGo, hct]

/-- Witness for C8: the amended behaviour at concrete entries. -/
theorem C8_amended_contact_preview_witness :
    (contactText (mkEntry "a") =
        some (quoted (fmtArg (jsub (JVal.obj [("name", JVal.str "a")]) "name")) ++
          quoted (fmtArg (jsub (JVal.obj [("name", JVal.str "a")]) "email")) ++
          quoted (fmtArg (jsub (JVal.obj [("name", JVal.str "a")]) "organization")) ++
          quoted (fmtArg (jsub (JVal.obj [("name", JVal.str "a")]) "geolocation")))) ∧
    (appendLogGo snapA).2 = true ∧
    appendLogGo [(tsA, entryNoFrom)] = ([rowOf tsA entryNoFrom], false) :=
  ⟨(C8_amended_contact_preview.1 (mkEntry "a") (JVal.obj [("name", JVal.str "a")])
      (by decide)).1,
   C8_amended_contact_preview.2.1 snapA (by decide),
   C8_amended_contact_preview.2.2 tsA entryNoFrom [] (by decide)⟩

/-! ### C9 — internal fields are stripped before the generic renderers -/

theorem not_mem_keysOf_strip (m : Entry) (k : String)
    (h : internalFields.contains k = true) : k ∉ keysOf (strip m) := by
  intro hm
  obtain ⟨kv, hkv, hfst⟩ := List.mem_map.mp hm
  have hp := List.of_mem_filter hkv
  rw [hfst, h] at hp
  simp at hp

/-- C9 (confirmed): the five internal-only fields `trigger`, `error`, `log`,
`timestamp`, `type` are deleted (lines 30–34) before the entry reaches the
generic detail panel (whose data is the stripped entry itself, line 50) and
the generic key:value preview (lines 55–60), so none of them occurs among
the panel's keys or the preview's keys — the preview's keys being exactly
`subject`, `folder`, then the stripped entry's keys in enumeration order. -/
theorem C9_internal_fields_not_leaked :
    ∀ m : Entry,
      ("trigger" ∉ keysOf (strip m) ∧ "error" ∉ keysOf (strip m) ∧
        "log" ∉ keysOf (strip m) ∧ "timestamp" ∉ keysOf (strip m) ∧
        "type" ∉ keysOf (strip m)) ∧
      (previewItems (strip m)).map Prod.fst = "subject" :: "folder" :: keysOf (strip m) ∧
      ("trigger" ∉ (previewItems (strip m)).map Prod.fst ∧
        "error" ∉ (previewItems (strip m)).map Prod.fst ∧
        "log" ∉ (previewItems (strip m)).map Prod.fst ∧
        "timestamp" ∉ (previewItems (strip m)).map Prod.fst ∧
        "type" ∉ (previewItems (strip m)).map Prod.fst) := by
  intro m
  have h1 := not_mem_keysOf_strip m "trigger" (by decide)
  have h2 := not_mem_keysOf_strip m "error" (by decide)
  have h3 := not_mem_keysOf_strip m "log" (by decide)
  have h4 := not_mem_keysOf_strip m "timestamp" (by decide)
  have h5 := not_mem_keysOf_strip m "type" (by decide)
  have hmap : (previewItems (strip m)).map Prod.fst =
      "subject" :: "folder" :: keysOf (strip m) := by
    simp [previewItems, keysOf, List.map_map, Function.comp]
  refine ⟨⟨h1, h2, h3, h4, h5⟩, hmap, ?_⟩
  rw [hmap]
  refine ⟨?_, ?_, ?_, ?_, ?_⟩ <;> simp [List.mem_cons, h1, h2, h3, h4, h5]

/-! ### C4 — display order is lexicographic, not chronological -/

/-- Refinement-side definition following the spec's words ("descending by
actual chronological time"): the chronological code of a date string
`"M/D/YYYY"`, ordered year first, then month, then day. -/
def splitSlashAux : List Char → List Char → List (List Char)
  | [], acc => [acc.reverse]
  | c :: cs, acc => if c = '/' then acc.reverse :: splitSlashAux cs [] else splitSlashAux cs (c :: acc)

def digitsVal (l : List Char) : Nat := l.foldl (fun acc c => acc * 10 + (c.toNat - 48)) 0

def isDigits (l : List Char) : Bool := !l.isEmpty && l.all (fun c => c.isDigit)

def dateCode (s : String) : Nat :=
  match splitSlashAux s.data [] with
  | [m, d, y] =>
      if isDigits m && isDigits d && isDigits y then
        digitsVal y * 10000 + digitsVal m * 100 + digitsVal d
      else 0
  | _ => 0

/-- The spec's required display order: descending chronological time of the
rows' date columns. -/
def chronoDescending (rows : List Row) : Prop :=
  rows.Pairwise (fun a b => dateCode b.dateCol ≤ dateCode a.dateCol)

instance : DecidablePred chronoDescending := fun rows =>
  inferInstanceAs (Decidable (List.Pairwise _ rows))

/-- C4 counterexample: a first load with entries dated 12/31/2023 and
1/2/2024 — the table after the batch append shows 12/31/2023 first (the
string "12/31/2023" sorts above "1/2/2024" lexicographically), which is not
descending by actual chronological time. -/
theorem C4_counterexample_not_chronological :
    ¬ chronoDescending (historyStep parseW initialState (.tick rDatesW)).st.table := by
  decide

/-- C4 (corrected): after every batch append the final display order is the
stable DESCENDING LEXICOGRAPHIC order of the column-0 date strings (the
`order([0,'des'])` reorder of line 65): the reorder always leaves the table
pairwise-descending as strings, and every completed changed tick leaves the
table equal to the stable reorder of the old rows with the new batch — but
this is string order, not chronological order (see the counterexample). -/
theorem C4_amended_descending_lexicographic :
    (∀ rows : List Row, (tableSort rows).Pairwise rowRel) ∧
    (∀ (parse : String → Option Snapshot) (st : HState) (res : Response),
        res.status = true → st.log_backup ≠ res.imap_log →
        (historyStep parse st (.tick res)).rescheduled = true →
        (historyStep parse st (.tick res)).st.table =
          tableSort (st.table ++ (historyStep parse st (.tick res)).rendered) ∧
        (historyStep parse st (.tick res)).st.table.Pairwise rowRel) := by
  refine ⟨tableSort_sorted, ?_⟩
  intro parse st res hs hne hr
  by_cases hb : st.log_backup = ""
  · cases hp : parse res.imap_log with
    | none =>
        rw [historyStep_tick_noParse parse st res hs hne hp] at hr
        simp at hr
    | some S =>
        cases hok : (firstBatch S).2 with
        | false =>
            rw [historyStep_tick_first_crash parse st res S hs hne hb hp hok] at hr
            simp at hr
        | true =>
            rw [historyStep_tick_first parse st res S hs hne hb hp hok]
            exact ⟨rfl, tableSort_sorted _⟩
  · cases hp : parse res.imap_log with
    | none =>
        rw [historyStep_tick_noParse parse st res hs hne hp] at hr
        simp at hr
    | some S =>
        cases hpb : parse st.log_backup with
        | none =>
            rw [historyStep_tick_noParseBackup parse st res S hs hne hb hp hpb] at hr
            simp at hr
        | some B =>
            cases hok : (deltaBatch S B).2 with
            | false =>
                rw [historyStep_tick_delta_crash parse st res S B hs hne hb hp hpb hok] at hr
                simp at hr
            | true =>
                rw [historyStep_tick_delta parse st res S B hs hne hb hp hpb hok]
                exact ⟨rfl, tableSort_sorted _⟩

/-- Witness for C4: the amended order property at a concrete first load. -/
theorem C4_amended_descending_lexicographic_witness :
    (historyStep parseW initialState (.tick rDatesW)).st.table =
      tableSort (initialState.table ++ (historyStep parseW initialState (.tick rDatesW)).rendered) ∧
    (historyStep parseW initialState (.tick rDatesW)).st.table.Pairwise rowRel :=
  C4_amended_descending_lexicographic.2 parseW initialState rDatesW rfl (by decide) (by decide)

/-! ### C5 — change detection and the baseline -/

/-- C5 counterexample: tick 1 accepts payload `"p1"`; tick 2 is a successful
poll tick (`status` true) whose changed payload fails to decode — the
callback throws at line 83 before the baseline assignment of line 113, so
the baseline is NOT recorded on that successful tick, refuting "the baseline
payload is recorded on every successful tick regardless of whether rendering
occurred". -/
theorem C5_counterexample_baseline_not_recorded :
    rBadW.status = true ∧
    (runTrace parseW initialState [.tick r1W, .tick rBadW]).log_backup ≠ rBadW.imap_log := by
  decide

/-- C5 (corrected): (1) a successful tick whose raw payload equals the
baseline triggers no parsing, no diffing and no rendering — the whole step
only re-runs the assignments of lines 113–126; (2) on every successful tick
that completes (i.e. reschedules), the baseline ends up equal to that tick's
raw payload — regardless of whether rendering occurred — so (3) any
successful tick whose payload differs from the baseline is detected: the
payload is parsed.  (The uncorrected universal claim fails only for a
successful tick whose changed payload does not decode: that tick dies before
line 113 and the baseline survives unchanged.) -/
theorem C5_amended_skip_and_baseline :
    (∀ (parse : String → Option Snapshot) (st : HState) (res : Response),
        res.status = true → st.log_backup = res.imap_log →
        historyStep parse st (.tick res) =
          ⟨{ st with log_backup := res.imap_log, user_status_backup := res.user_status_msg },
           [], false, false, true⟩) ∧
    (∀ (parse : String → Option Snapshot) (st : HState) (res : Response),
        res.status = true →
        (historyStep parse st (.tick res)).rescheduled = true →
        (historyStep parse st (.tick res)).st.log_backup = res.imap_log) ∧
    (∀ (parse : String → Option Snapshot) (st : HState) (res : Response),
        res.status = true → st.log_backup ≠ res.imap_log →
        (historyStep parse st (.tick res)).parsed = true) := by
  refine ⟨historyStep_tick_skip, ?_, ?_⟩
  · intro parse st res hs hr
    by_cases hne : st.log_backup = res.imap_log
    · rw [historyStep_tick_skip parse st res hs hne]
    · by_cases hb : st.log_backup = ""
      · cases hp : parse res.imap_log with
        | none =>
            rw [historyStep_tick_noParse parse st res hs hne hp] at hr
            simp at hr
        | some S =>
            cases hok : (firstBatch S).2 with
            | false =>
                rw [historyStep_tick_first_crash parse st res S hs hne hb hp hok] at hr
                simp at hr
            | true => rw [historyStep_tick_first parse st res S hs hne hb hp hok]
      · cases hp : parse res.imap_log with
        | none =>
            rw [historyStep_tick_noParse parse st res hs hne hp] at hr
            simp at hr
        | some S =>
            cases hpb : parse st.log_backup with
            | none =>
                rw [historyStep_tick_noParseBackup parse st res S hs hne hb hp hpb] at hr
                simp at hr
            | some B =>
                cases hok : (deltaBatch S B).2 with
                | false =>
                    rw [historyStep_tick_delta_crash parse st res S B hs hne hb hp hpb hok] at hr
                    simp at hr
                | true => rw [historyStep_tick_delta parse st res S B hs hne hb hp hpb hok]
  · intro parse st res hs hne
    by_cases hb : st.log_backup = ""
    · cases hp : parse res.imap_log with
      | none => rw [historyStep_tick_noParse parse st res hs hne hp]
      | some S =>
          cases hok : (firstBatch S).2 with
          | false => rw [historyStep_tick_first_crash parse st res S hs hne hb hp hok]
          | true => rw [historyStep_tick_first parse st res S hs hne hb hp hok]
    · cases hp : parse res.imap_log with
      | none => rw [historyStep_tick_noParse parse st res hs hne hp]
      | some S =>
          cases hpb : parse st.log_backup with
          | none => rw [historyStep_tick_noParseBackup parse st res S hs hne hb hp hpb]
          | some B =>
              cases hok : (deltaBatch S B).2 with
              | false => rw [historyStep_tick_delta_crash parse st res S B hs hne hb hp hpb hok]
              | true => rw [historyStep_tick_delta parse st res S B hs hne hb hp hpb hok]

/-- Witness for C5: the three conjuncts at concrete ticks. -/
theorem C5_amended_skip_and_baseline_witness :
    (historyStep parseW stW (.tick ⟨true, "p1", "run"⟩) =
      ⟨{ stW with log_backup := "p1", user_status_backup := "run" }, [], false, false, true⟩) ∧
    (historyStep parseW initialState (.tick r1W)).st.log_backup = r1W.imap_log ∧
    (historyStep parseW stW (.tick r2W)).parsed = true :=
  ⟨C5_amended_skip_and_baseline.1 parseW stW ⟨true, "p1", "run"⟩ rfl rfl,
   C5_amended_skip_and_baseline.2.1 parseW initialState r1W rfl (by decide),
   C5_amended_skip_and_baseline.2.2 parseW stW r2W rfl (by decide)⟩

/-! ### C10 — empty-string payloads and the first-load sentinel -/

/-- C10 counterexample: after a first tick accepts `"p1"`, a successful tick
with `imap_log = ""` does not leave (or reset) the baseline at the
empty-string sentinel: `JSON.parse("")` throws, the tick aborts without
rescheduling, and the baseline stays `"p1"`; a later non-empty tick is then
diffed against `"p1"` — it binds no new load-more handler, i.e. it is not
processed as a fresh first load. -/
theorem C10_counterexample_empty_payload :
    ((stepsFrom parseW initialState [.tick r1W, .tick rEmptyW]).map (fun o => o.rescheduled) =
      [true, false]) ∧
    (runTrace parseW initialState [.tick r1W, .tick rEmptyW]).log_backup = "p1" ∧
    (runTrace parseW initialState [.tick r1W, .tick rEmptyW, .tick r2W]).handlers.length = 1 := by
  decide

/-- C10 (corrected): an empty-string payload interacts with the sentinel in
two different ways.  (1) While nothing has been accepted yet (baseline still
`""`), a successful empty payload is skipped as unchanged: the baseline stays
the sentinel, nothing is parsed or rendered — so the next non-empty payload
is indeed processed as a fresh first load (2): capped batch, button shown.
(3) But once a non-empty payload has been accepted, a successful empty
payload makes `JSON.parse("")` throw: the tick aborts with the baseline (and
everything else) unchanged and the poll loop is not rescheduled. -/
theorem C10_amended_empty_payload :
    (∀ (parse : String → Option Snapshot) (st : HState) (res : Response),
        res.status = true → st.log_backup = "" → res.imap_log = "" →
        historyStep parse st (.tick res) =
          ⟨{ st with log_backup := res.imap_log, user_status_backup := res.user_status_msg },
           [], false, false, true⟩) ∧
    (∀ (parse : String → Option Snapshot) (st : HState) (res : Response) (S : Snapshot),
        res.status = true → st.log_backup = "" → res.imap_log ≠ "" →
        parse res.imap_log = some S → (firstBatch S).2 = true →
        (historyStep parse st (.tick res)).st.btnVisible = true ∧
        (historyStep parse st (.tick res)).rendered = (firstBatch S).1 ∧
        (historyStep parse st (.tick res)).st.handlers = st.handlers ++ [(recentOf S, S)]) ∧
    (∀ (parse : String → Option Snapshot) (st : HState) (res : Response),
        res.status = true → st.log_backup ≠ "" → res.imap_log = "" → parse "" = none →
        historyStep parse st (.tick res) = ⟨st, [], true, false, false⟩) := by
  refine ⟨?_, ?_, ?_⟩
  · intro parse st res hs hb hp
    exact historyStep_tick_skip parse st res hs (hb.trans hp.symm)
  · intro parse st res S hs hb hp hparse hok
    have hne : st.log_backup ≠ res.imap_log := fun h => hp (h.symm.trans hb)
    rw [historyStep_tick_first parse st res S hs hne hb hparse hok]
    exact ⟨rfl, rfl, rfl⟩
  · intro parse st res hs hb hp h0
    have hne : st.log_backup ≠ res.imap_log := fun h => hb (h.trans hp)
    exact historyStep_tick_noParse parse st res hs hne (hp ▸ h0)

/-- Witness for C10: the three amended conjuncts at concrete ticks. -/
theorem C10_amended_empty_payload_witness :
    (historyStep parseW initialState (.tick rEmptyW) =
      ⟨{ initialState with log_backup := "", user_status_backup := "" },
       [], false, false, true⟩) ∧
    ((historyStep parseW initialState (.tick r1W)).st.btnVisible = true ∧
      (historyStep parseW initialState (.tick r1W)).rendered = (firstBatch snapA).1 ∧
      (historyStep parseW initialState (.tick r1W)).st.handlers =
        initialState.handlers ++ [(recentOf snapA, snapA)]) ∧
    historyStep parseW stW (.tick rEmptyW) = ⟨stW, [], true, false, false⟩ :=
  ⟨C10_amended_empty_payload.1 parseW initialState rEmptyW rfl rfl rfl,
   C10_amended_empty_payload.2.1 parseW initialState r1W snapA rfl rfl (by decide) (by decide)
     (by decide),
   C10_amended_empty_payload.2.2 parseW stW rEmptyW rfl (by decide) rfl rfl⟩

/-! ### C3 — first-load pagination and the load-more affordance -/

/-- First event of a page session: the first successful poll tick. -/
def sessO1 (parse : String → Option Snapshot) (r1 : Response) : StepOut :=
  historyStep parse initialState (.tick r1)

/-- Second event: a later successful poll tick. -/
def sessO2 (parse : String → Option Snapshot) (r1 r2 : Response) : StepOut :=
  historyStep parse (sessO1 parse r1).st (.tick r2)

/-- Third event: the user clicks the load-more affordance. -/
def sessO3 (parse : String → Option Snapshot) (r1 r2 : Response) : StepOut :=
  historyStep parse (sessO2 parse r1 r2).st .click

/-- Fourth event: a second click on the (now hidden) affordance. -/
def sessO4 (parse : String → Option Snapshot) (r1 r2 : Response) : StepOut :=
  historyStep parse (sessO3 parse r1 r2).st .click

/-- C3 counterexample, two parts.  Part one: the line-87 comparator
`function(a, b) {return a>b;}` returns a boolean — an inconsistent
comparison function, so the "sorted" order is what the engine's sort leaves
behind, namely the array unchanged — and `slice(-10)` therefore keeps the
last 10 INSERTION-ORDER keys, not the 10 greatest: on `snapDesc`, whose
insertion order starts with the lexicographically greatest key, that key is
not rendered by the first load although a strictly smaller key is.  Part
two: on `snapMix` the load-more remainder is a single `from_`-less entry,
so the first click's batch adds its row and then throws BEFORE the
`$(this).hide()` of line 94: after one click the button is still visible,
and a second click renders the same remainder key again — the remainder is
not rendered "with no duplicates", and the second invocation is not a
no-op.  Both sessions are realizable: each first load touches only
well-formed entries and completes, and clicks are user events. -/
theorem C3_counterexample_pagination :
    (tsDescBig ∈ keysOf snapDesc ∧
      tsDescBig ∉ (sessO1 parseW rDescW).rendered.map Row.key ∧
      tsDescSmall ∈ (sessO1 parseW rDescW).rendered.map Row.key ∧
      strLtb tsDescSmall.data tsDescBig.data = true) ∧
    ((runTrace parseW initialState [.tick rMixW, .click]).btnVisible = true ∧
      (stepsFrom parseW initialState [.tick rMixW, .click, .click]).map
          (fun o => (o.rendered.map Row.key).count tsMixN) = [0, 1, 1]) := by
  decide

/-- C3 (corrected): on the first successful fetch of a session whose
snapshot `S1` has more than 10 entries and all of whose entries carry
`from_` (so no batch render throws), the 10 LAST KEYS OF `S1` IN SNAPSHOT
INSERTION ORDER — not the 10 greatest: line 87's boolean comparator is an
inconsistent comparison function and the engines' sorts leave the array
unchanged — are rendered (in ascending order, by line 10's default sort);
after any further successful tick, invoking the load-more affordance
renders exactly the remaining keys of the ORIGINAL first snapshot (captured
at first load — the conclusion mentions only `S1`, not the later snapshot
`S2`), and together the two batches are exactly the keys of `S1`, no
duplicates, no omissions; a second invocation of the affordance (now
hidden) is a no-op. -/
theorem C3_amended_first_load_pagination
    (parse : String → Option Snapshot) (r1 r2 : Response) (S1 S2 : Snapshot)
    (hs1 : r1.status = true) (hp1 : parse r1.imap_log = some S1)
    (hwf1 : wfSnap S1 = true) (hbig : 10 < (keysOf S1).length)
    (hne1 : r1.imap_log ≠ "")
    (hs2 : r2.status = true) (hp2 : parse r2.imap_log = some S2)
    (hwf2 : wfSnap S2 = true) :
    (sessO1 parse r1).rendered.map Row.key = sortAsc (recentOf S1) ∧
    (recentOf S1).length = 10 ∧
    keysOf S1 = (keysOf S1).take ((keysOf S1).length - 10) ++ recentOf S1 ∧
    (sessO3 parse r1 r2).rendered.map Row.key = sortAsc (restKeys S1 (recentOf S1)) ∧
    ((sessO1 parse r1).rendered.map Row.key ++
        (sessO3 parse r1 r2).rendered.map Row.key).Perm (keysOf S1) ∧
    sessO4 parse r1 r2 = ⟨(sessO3 parse r1 r2).st, [], false, false, false⟩ := by
  have hfb := firstBatch_spec hwf1
  have hne : initialState.log_backup ≠ r1.imap_log := fun h => hne1 h.symm
  have ho1 : sessO1 parse r1 =
      ⟨{ log_backup := r1.imap_log,
         user_status_backup := r1.user_status_msg,
         table := tableSort (initialState.table ++ (firstBatch S1).1),
         btnVisible := true,
         handlers := initialState.handlers ++ [(recentOf S1, S1)] },
       (firstBatch S1).1, true, false, true⟩ := by
    rw [sessO1, historyStep_tick_first parse initialState r1 S1 hs1 hne rfl hp1 hfb.1]
  have ho1h : (sessO1 parse r1).st.handlers = [(recentOf S1, S1)] := by
    rw [ho1]
    rfl
  have ho1b : (sessO1 parse r1).st.btnVisible = true := by rw [ho1]
  have ho1back : (sessO1 parse r1).st.log_backup = r1.imap_log := by rw [ho1]
  -- after the second tick the button is still shown with the same handler
  have ho2 : (sessO2 parse r1 r2).st.btnVisible = true ∧
      (sessO2 parse r1 r2).st.handlers = [(recentOf S1, S1)] := by
    by_cases heq : (sessO1 parse r1).st.log_backup = r2.imap_log
    · rw [sessO2, historyStep_tick_skip parse _ r2 hs2 heq]
      exact ⟨ho1b, ho1h⟩
    · have hb : (sessO1 parse r1).st.log_backup ≠ "" := by
        rw [ho1back]
        exact hne1
      have hpb : parse (sessO1 parse r1).st.log_backup = some S1 := by
        rw [ho1back]
        exact hp1
      have hdb := deltaBatch_spec (S := S2) S1 hwf2
      rw [sessO2, historyStep_tick_delta parse _ r2 S2 S1 hs2 heq hb hp2 hpb hdb.1]
      exact ⟨ho1b, ho1h⟩
  have hrb := @restBatch_spec S1 (recentOf S1) hwf1
  have hrun : runHandlers (sessO2 parse r1 r2).st [(recentOf S1, S1)] =
      ({ (sessO2 parse r1 r2).st with
           table := tableSort ((sessO2 parse r1 r2).st.table ++ (restBatch S1 (recentOf S1)).1),
           btnVisible := false },
       (restBatch S1 (recentOf S1)).1) := by
    simp [runHandlers, hrb.1]
  have ho3 : sessO3 parse r1 r2 =
      ⟨{ (sessO2 parse r1 r2).st with
           table := tableSort ((sessO2 parse r1 r2).st.table ++ (restBatch S1 (recentOf S1)).1),
           btnVisible := false },
       (restBatch S1 (recentOf S1)).1, false, false, false⟩ := by
    rw [sessO3, historyStep_click_visible parse _ ho2.1, ho2.2, hrun]
  have ho3b : (sessO3 parse r1 r2).st.btnVisible = false := by rw [ho3]
  refine ⟨?_, ?_, ?_, ?_, ?_, ?_⟩
  · rw [ho1]
    exact hfb.2
  · simp only [recentOf, List.length_drop]
    omega
  · exact (List.take_append_drop ((keysOf S1).length - 10) (keysOf S1)).symm
  · rw [ho3]
    exact hrb.2
  · rw [ho1, ho3]
    have hkn : (keysOf S1).Nodup := wfSnap_nodup hwf1
    have hnr : (recentOf S1).Nodup := recentOf_nodup hkn
    have hrestn : (restKeys S1 (recentOf S1)).Nodup := jqNot_nodup hkn
    have hdisj : (recentOf S1).Disjoint (restKeys S1 (recentOf S1)) :=
      fun a ha hb => (mem_jqNot.mp hb).2 ha
    have hmem_app : ∀ x, x ∈ recentOf S1 ++ restKeys S1 (recentOf S1) ↔ x ∈ keysOf S1 := by
      intro x
      rw [List.mem_append, restKeys, mem_jqNot]
      constructor
      · rintro (h | ⟨h, _⟩)
        · exact recentOf_sub S1 x h
        · exact h
      · intro h
        by_cases hr : x ∈ recentOf S1
        · exact Or.inl hr
        · exact Or.inr ⟨h, hr⟩
    have hperm : (recentOf S1 ++ restKeys S1 (recentOf S1)).Perm (keysOf S1) :=
      List.perm_of_nodup_nodup_toFinset_eq (List.Nodup.append hnr hrestn hdisj) hkn
        (Finset.ext fun x => by simp only [List.mem_toFinset]; exact hmem_app x)
    rw [hfb.2, hrb.2]
    exact (List.Perm.append (sortAsc_perm (recentOf S1))
      (sortAsc_perm (restKeys S1 (recentOf S1)))).trans hperm
  · rw [sessO4, historyStep_click_hidden parse _ ho3b]

/-- Witness for C3: an 11-entry first snapshot, a repeat tick, then the two
clicks. -/
theorem C3_amended_first_load_pagination_witness :
    (sessO1 parseW rBigW).rendered.map Row.key = sortAsc (recentOf snapBig) ∧
    (recentOf snapBig).length = 10 ∧
    (sessO3 parseW rBigW rBigW).rendered.map Row.key =
      sortAsc (restKeys snapBig (recentOf snapBig)) ∧
    sessO4 parseW rBigW rBigW = ⟨(sessO3 parseW rBigW rBigW).st, [], false, false, false⟩ := by
  have h := C3_amended_first_load_pagination parseW rBigW rBigW snapBig snapBig rfl (by decide)
    (by decide) (by decide) (by decide) rfl (by decide) (by decide)
  exact ⟨h.1, h.2.1, h.2.2.2.1, h.2.2.2.2.2⟩

/-! ### C1 — at-most-once rendering over a page session -/

/-- Key-set inclusion between snapshots (the append-only-log assumption). -/
def keySub (A B : Snapshot) : Prop := ∀ k ∈ keysOf A, k ∈ keysOf B

instance : IsTrans Snapshot keySub := ⟨fun _ _ _ hab hbc k hk => hbc k (hab k hk)⟩

/-- The snapshots delivered by the successful ticks of a trace, in order. -/
def snapsOf (parse : String → Option Snapshot) (tr : List Ev) : List Snapshot :=
  tr.filterMap (fun e => match e with
    | .tick r => if r.status then parse r.imap_log else none
    | _ => none)

theorem snapsOf_fail (parse : String → Option Snapshot) (es : List Ev) :
    snapsOf parse (.fail :: es) = snapsOf parse es := rfl

theorem snapsOf_click (parse : String → Option Snapshot) (es : List Ev) :
    snapsOf parse (.click :: es) = snapsOf parse es := rfl

theorem snapsOf_tick_false (parse : String → Option Snapshot) (r : Response) (es : List Ev)
    (h : r.status = false) : snapsOf parse (.tick r :: es) = snapsOf parse es := by
  simp [snapsOf, List.filterMap_cons, h]

theorem snapsOf_tick_true (parse : String → Option Snapshot) (r : Response) (es : List Ev)
    (S : Snapshot) (h : r.status = true) (hp : parse r.imap_log = some S) :
    snapsOf parse (.tick r :: es) = S :: snapsOf parse es := by
  simp [snapsOf, List.filterMap_cons, h, hp]

theorem snapsOf_tick_none (parse : String → Option Snapshot) (r : Response) (es : List Ev)
    (h : r.status = true) (hp : parse r.imap_log = none) :
    snapsOf parse (.tick r :: es) = snapsOf parse es := by
  simp [snapsOf, List.filterMap_cons, h, hp]

theorem snapsOf_tail_subset (parse : String → Option Snapshot) (e : Ev) (es : List Ev) :
    ∀ T ∈ snapsOf parse es, T ∈ snapsOf parse (e :: es) := by
  intro T hT
  cases e with
  | fail =>
      rw [snapsOf_fail]
      exact hT
  | click =>
      rw [snapsOf_click]
      exact hT
  | tick r =>
      cases hs : r.status with
      | false =>
          rw [snapsOf_tick_false parse r es hs]
          exact hT
      | true =>
          cases hp : parse r.imap_log with
          | none =>
              rw [snapsOf_tick_none parse r es hs hp]
              exact hT
          | some S =>
              rw [snapsOf_tick_true parse r es S hs hp]
              exact List.mem_cons_of_mem _ hT

theorem snapsOf_pairwise_tail (parse : String → Option Snapshot) (e : Ev) (es : List Ev)
    (h : (snapsOf parse (e :: es)).Pairwise keySub) :
    (snapsOf parse es).Pairwise keySub := by
  cases e with
  | fail =>
      rw [snapsOf_fail] at h
      exact h
  | click =>
      rw [snapsOf_click] at h
      exact h
  | tick r =>
      cases hs : r.status with
      | false =>
          rw [snapsOf_tick_false parse r es hs] at h
          exact h
      | true =>
          cases hp : parse r.imap_log with
          | none =>
              rw [snapsOf_tick_none parse r es hs hp] at h
              exact h
          | some S =>
              rw [snapsOf_tick_true parse r es S hs hp] at h
              exact h.of_cons

theorem stepsFromAux_cons_skip (parse : String → Option Snapshot) (alive : Bool)
    (st : HState) (e : Ev) (es : List Ev) (h : (e.isPoll && !alive) = true) :
    stepsFromAux parse alive st (e :: es) = stepsFromAux parse alive st es := by
  simp [stepsFromAux, h]

theorem stepsFromAux_cons_run (parse : String → Option Snapshot) (alive : Bool)
    (st : HState) (e : Ev) (es : List Ev) (h : ¬ ((e.isPoll && !alive) = true)) :
    stepsFromAux parse alive st (e :: es) =
      historyStep parse st e ::
        stepsFromAux parse
          (if e.isPoll then (historyStep parse st e).rescheduled else alive)
          (historyStep parse st e).st es := by
  simp [stepsFromAux, h]

/-- Session invariant for the at-most-once property, where `R` is the set of
keys rendered so far: the table is kept sorted; at most one load-more handler
is ever bound; while the baseline is the first-load sentinel nothing has been
rendered; once a baseline has been accepted, it decodes to a well-formed
snapshot whose keys cover everything rendered and everything captured by the
bound handler, and — while the load-more button is visible — the handler's
pending remainder is disjoint from everything rendered. -/
structure C1Inv (parse : String → Option Snapshot) (st : HState) (R : Finset String) : Prop where
  tableSorted : st.table.Pairwise rowRel
  hlen : st.handlers.length ≤ 1
  backupEmpty : st.log_backup = "" → R = ∅ ∧ st.handlers = [] ∧ st.btnVisible = false
  backupGood : st.log_backup ≠ "" → ∃ B, parse st.log_backup = some B ∧ wfSnap B = true ∧
    (∀ k ∈ R, k ∈ keysOf B) ∧
    ∀ h ∈ st.handlers, wfSnap h.2 = true ∧
      (∀ k ∈ keysOf h.2, k ∈ keysOf B) ∧ (∀ k ∈ h.1, k ∈ keysOf h.2) ∧
      (st.btnVisible = true → ∀ k ∈ restKeys h.2 h.1, k ∉ R)

/-- The accepted baseline decodes to a snapshot below every future snapshot. -/
def FutureOK (parse : String → Option Snapshot) (st : HState) (tr : List Ev) : Prop :=
  st.log_backup = "" ∨
    ∃ B, parse st.log_backup = some B ∧ ∀ S ∈ snapsOf parse tr, keySub B S

theorem c1_run (parse : String → Option Snapshot) (hp0 : parse "" = none) :
    ∀ (tr : List Ev) (alive : Bool) (st : HState) (R : Finset String),
      C1Inv parse st R → FutureOK parse st tr →
      (∀ r, Ev.tick r ∈ tr → r.status = true →
          ∃ S, parse r.imap_log = some S ∧ wfSnap S = true) →
      (snapsOf parse tr).Pairwise keySub →
      (((stepsFromAux parse alive st tr).flatMap
          (fun o => o.rendered.map Row.key)).Nodup ∧
        ∀ k ∈ (stepsFromAux parse alive st tr).flatMap
            (fun o => o.rendered.map Row.key), k ∉ R) ∧
      List.Chain' (fun t u => t.Sublist u)
        (st.table :: (stepsFromAux parse alive st tr).map (fun o => o.st.table)) := by
  intro tr
  induction tr with
  | nil =>
      intro alive st R _ _ _ _
      refine ⟨⟨?_, ?_⟩, ?_⟩
      · simp [stepsFromAux]
      · simp [stepsFromAux]
      · simp [stepsFromAux]
  | cons e es ih =>
      intro alive st R hinv hfut hticks hpair
      have hticks' : ∀ r, Ev.tick r ∈ es → r.status = true →
          ∃ S, parse r.imap_log = some S ∧ wfSnap S = true :=
        fun r hr => hticks r (List.mem_cons_of_mem _ hr)
      by_cases hskip : (e.isPoll && !alive) = true
      · -- the poll loop is dead: this poll event cannot occur and is dropped
        rw [stepsFromAux_cons_skip parse alive st e es hskip]
        refine ih alive st R hinv ?_ hticks' (snapsOf_pairwise_tail parse e es hpair)
        rcases hfut with h | ⟨B, hB, hAll⟩
        · exact Or.inl h
        · exact Or.inr ⟨B, hB, fun T hT => hAll T (snapsOf_tail_subset parse e es T hT)⟩
      -- the event is delivered
      -- a common combinator: given the step's outcome and the preserved
      -- invariant data, assemble the conclusion from the induction hypothesis
      have combine : ∀ (O : StepOut) (a : Bool), historyStep parse st e = O →
          (if e.isPoll then O.rescheduled else alive) = a →
          ∀ (R' : Finset String),
          (O.rendered.map Row.key).Nodup →
          (∀ k ∈ O.rendered.map Row.key, k ∉ R) →
          (∀ k, k ∈ R → k ∈ R') →
          (∀ k ∈ O.rendered.map Row.key, k ∈ R') →
          C1Inv parse O.st R' → FutureOK parse O.st es →
          (snapsOf parse es).Pairwise keySub →
          st.table.Sublist O.st.table →
          (((stepsFromAux parse alive st (e :: es)).flatMap
              (fun o => o.rendered.map Row.key)).Nodup ∧
            ∀ k ∈ (stepsFromAux parse alive st (e :: es)).flatMap
                (fun o => o.rendered.map Row.key), k ∉ R) ∧
          List.Chain' (fun t u => t.Sublist u)
            (st.table ::
              (stepsFromAux parse alive st (e :: es)).map (fun o => o.st.table)) := by
        intro O a hO ha R' hrkN hrkR hRup hrkR' hinv' hfut' hpair' hsub
        have rec := ih a O.st R' hinv' hfut' hticks' hpair'
        have hsteps : stepsFromAux parse alive st (e :: es) =
            O :: stepsFromAux parse a O.st es := by
          rw [stepsFromAux_cons_run parse alive st e es hskip, hO, ha]
        rw [hsteps]
        simp only [List.flatMap_cons, List.map_cons]
        constructor
        · constructor
          · refine List.Nodup.append hrkN rec.1.1 ?_
            intro x hx hb
            exact rec.1.2 x hb (hrkR' x hx)
          · intro k hk
            rcases List.mem_append.mp hk with h | h
            · exact hrkR k h
            · exact fun hkR => rec.1.2 k h (hRup k hkR)
        · exact List.chain'_cons.mpr ⟨hsub, rec.2⟩
      cases e with
      | fail =>
          exact combine ⟨st, [], false, true, false⟩ _ (historyStep_fail parse st) rfl R
            List.nodup_nil (by simp) (fun k h => h) (by simp) hinv hfut hpair
            (List.Sublist.refl _)
      | click =>
          by_cases hb : st.btnVisible = true
          · rcases hlist : st.handlers with _ | ⟨⟨recent, ini⟩, hs2⟩
            · have hrun : runHandlers st st.handlers = (st, []) := by rw [hlist]; rfl
              refine combine ⟨st, [], false, false, false⟩ _ ?_ rfl R List.nodup_nil
                (by simp) (fun k h => h) (by simp) hinv hfut hpair (List.Sublist.refl _)
              rw [historyStep_click_visible parse st hb, hrun]
            · have hs2nil : hs2 = [] := by
                have hl := hinv.hlen
                rw [hlist] at hl
                simp at hl
                exact hl
              subst hs2nil
              have hbne : st.log_backup ≠ "" := by
                intro hbe
                have hemp := (hinv.backupEmpty hbe).2.1
                rw [hlist] at hemp
                cases hemp
              obtain ⟨B, hpB, hwfB, hRB, hhs⟩ := hinv.backupGood hbne
              have hmem : ((recent, ini) : List String × Snapshot) ∈ st.handlers := by
                rw [hlist]
                exact List.mem_cons_self _ _
              obtain ⟨hwfIni, hIniB, hRecIni, hRest⟩ := hhs (recent, ini) hmem
              have hrb := @restBatch_spec ini recent hwfIni
              have hrun : runHandlers st [(recent, ini)] =
                  ({ st with
                       table := tableSort (st.table ++ (restBatch ini recent).1),
                       btnVisible := false },
                   (restBatch ini recent).1) := by
                simp [runHandlers, hrb.1]
              have hO : historyStep parse st .click =
                  ⟨{ st with
                       table := tableSort (st.table ++ (restBatch ini recent).1),
                       btnVisible := false },
                     (restBatch ini recent).1, false, false, false⟩ := by
                rw [historyStep_click_visible parse st hb, hlist, hrun, hlist]
              have hrkMem : ∀ k ∈ (restBatch ini recent).1.map Row.key,
                  k ∈ restKeys ini recent := by
                intro k hk
                rw [hrb.2] at hk
                exact sortAsc_mem.mp hk
              refine combine _ _ hO rfl (R ∪ ((restBatch ini recent).1.map Row.key).toFinset)
                (by rw [hrb.2]; exact sortAsc_nodup (jqNot_nodup (wfSnap_nodup hwfIni)))
                (fun k hk => hRest hb k (hrkMem k hk))
                (fun k hk => Finset.mem_union_left _ hk)
                (fun k hk => Finset.mem_union_right _ (List.mem_toFinset.mpr hk))
                ?_ ?_ hpair ?_
              · refine ⟨tableSort_sorted _, by simpa [hlist] using hinv.hlen,
                  fun hbe => absurd hbe hbne, fun _ => ⟨B, hpB, hwfB, ?_, ?_⟩⟩
                · intro k hk
                  rcases Finset.mem_union.mp hk with h | h
                  · exact hRB k h
                  · exact hIniB k (jqNot_sub k (hrkMem k (List.mem_toFinset.mp h)))
                · intro h hmem2
                  rw [hlist] at hmem2
                  simp only [List.mem_cons, List.not_mem_nil, or_false] at hmem2
                  subst hmem2
                  exact ⟨hwfIni, hIniB, hRecIni, fun hvis => by simp at hvis⟩
              · rcases hfut with h | ⟨B', hB', hAll⟩
                · exact Or.inl h
                · exact Or.inr ⟨B', hB', hAll⟩
              · exact sublist_tableSort hinv.tableSorted (List.sublist_append_left _ _)
          · have hbf : st.btnVisible = false := by
              cases h : st.btnVisible
              · rfl
              · exact absurd h hb
            exact combine ⟨st, [], false, false, false⟩ _
              (historyStep_click_hidden parse st hbf) rfl R List.nodup_nil (by simp)
              (fun k h => h) (by simp) hinv hfut hpair (List.Sublist.refl _)
      | tick r =>
          cases hs : r.status with
          | false =>
              have hsnaps : snapsOf parse (.tick r :: es) = snapsOf parse es :=
                snapsOf_tick_false parse r es hs
              rw [hsnaps] at hpair
              refine combine ⟨st, [], false, false, true⟩ _
                (historyStep_tick_appFailure parse st r hs) rfl R List.nodup_nil (by simp)
                (fun k h => h) (by simp) hinv ?_ hpair (List.Sublist.refl _)
              rcases hfut with h | ⟨B', hB', hAll⟩
              · exact Or.inl h
              · refine Or.inr ⟨B', hB', ?_⟩
                rw [hsnaps] at hAll
                exact hAll
          | true =>
              obtain ⟨S, hpS, hwfS⟩ := hticks r (List.mem_cons_self _ _) hs
              have hplog : r.imap_log ≠ "" := by
                intro h
                rw [h, hp0] at hpS
                cases hpS
              have hsnaps : snapsOf parse (.tick r :: es) = S :: snapsOf parse es :=
                snapsOf_tick_true parse r es S hs hpS
              rw [hsnaps] at hpair
              have hheadS : ∀ T ∈ snapsOf parse es, keySub S T :=
                fun T hT => List.rel_of_pairwise_cons hpair hT
              have hpair' : (snapsOf parse es).Pairwise keySub := hpair.of_cons
              by_cases he : st.log_backup = r.imap_log
              · -- unchanged payload: skip branch
                have hO := historyStep_tick_skip parse st r hs he
                refine combine _ _ hO rfl R List.nodup_nil (by simp) (fun k h => h)
                  (by simp) ?_ ?_ hpair' (List.Sublist.refl _)
                · refine ⟨hinv.tableSorted, hinv.hlen, ?_, ?_⟩
                  · intro hbe
                    exact hinv.backupEmpty (he.trans hbe)
                  · intro hbe
                    obtain ⟨B, hpB, hwfB, hRB, hhs⟩ :=
                      hinv.backupGood (fun h0 => hbe (he.symm.trans h0))
                    exact ⟨B, he ▸ hpB, hwfB, hRB, hhs⟩
                · rcases hfut with h | ⟨B', hB', hAll⟩
                  · exact Or.inl (he.symm.trans h)
                  · refine Or.inr ⟨B', he ▸ hB', ?_⟩
                    intro T hT
                    rw [hsnaps] at hAll
                    exact hAll T (List.mem_cons_of_mem _ hT)
              · by_cases hbe : st.log_backup = ""
                · -- first load
                  obtain ⟨hR0, hh0, hv0⟩ := hinv.backupEmpty hbe
                  have hfb := firstBatch_spec hwfS
                  have hO := historyStep_tick_first parse st r S hs he hbe hpS hfb.1
                  have hrkMem : ∀ k ∈ (firstBatch S).1.map Row.key, k ∈ recentOf S := by
                    intro k hk
                    rw [hfb.2] at hk
                    exact sortAsc_mem.mp hk
                  refine combine _ _ hO rfl (R ∪ ((firstBatch S).1.map Row.key).toFinset)
                    (by rw [hfb.2]; exact sortAsc_nodup (recentOf_nodup (wfSnap_nodup hwfS)))
                    (fun k _ => by
                      rw [hR0]
                      exact Finset.not_mem_empty k)
                    (fun k hk => Finset.mem_union_left _ hk)
                    (fun k hk => Finset.mem_union_right _ (List.mem_toFinset.mpr hk))
                    ?_ ?_ hpair' ?_
                  · refine ⟨tableSort_sorted _, by rw [hh0]; simp,
                      fun hbe2 => absurd hbe2 hplog, fun _ => ⟨S, hpS, hwfS, ?_, ?_⟩⟩
                    · intro k hk
                      rcases Finset.mem_union.mp hk with h | h
                      · rw [hR0] at h
                        exact absurd h (Finset.not_mem_empty k)
                      · exact recentOf_sub S k (hrkMem k (List.mem_toFinset.mp h))
                    · intro h hm
                      rw [hh0] at hm
                      simp only [List.nil_append, List.mem_cons, List.not_mem_nil,
                        or_false] at hm
                      subst hm
                      refine ⟨hwfS, fun k hk => hk, recentOf_sub S, ?_⟩
                      intro _ k hk hkR'
                      rcases Finset.mem_union.mp hkR' with h2 | h2
                      · rw [hR0] at h2
                        exact absurd h2 (Finset.not_mem_empty k)
                      · exact (mem_jqNot.mp hk).2 (hrkMem k (List.mem_toFinset.mp h2))
                  · exact Or.inr ⟨S, hpS, hheadS⟩
                  · exact sublist_tableSort hinv.tableSorted (List.sublist_append_left _ _)
                · -- non-first changed tick: the delta branch
                  obtain ⟨B, hpB, hwfB, hRB, hhs⟩ := hinv.backupGood hbe
                  have hBS : keySub B S := by
                    rcases hfut with h | ⟨B', hB', hAll⟩
                    · exact absurd h hbe
                    · have hBB : B' = B := by
                        rw [hpB] at hB'
                        exact (Option.some.inj hB').symm
                      rw [hsnaps] at hAll
                      exact hBB ▸ hAll S (List.mem_cons_self _ _)
                  have hdb := deltaBatch_spec (S := S) B hwfS
                  have hO := historyStep_tick_delta parse st r S B hs he hbe hpS hpB hdb.1
                  have hrkMem : ∀ k ∈ (deltaBatch S B).1.map Row.key, k ∈ deltaKeys S B := by
                    intro k hk
                    rw [hdb.2] at hk
                    exact sortAsc_mem.mp hk
                  have hrkNotB : ∀ k ∈ (deltaBatch S B).1.map Row.key, k ∉ keysOf B :=
                    fun k hk => (mem_jqNot.mp (hrkMem k hk)).2
                  refine combine _ _ hO rfl (R ∪ ((deltaBatch S B).1.map Row.key).toFinset)
                    (by rw [hdb.2]; exact sortAsc_nodup (jqNot_nodup (wfSnap_nodup hwfS)))
                    (fun k hk hkR => hrkNotB k hk (hRB k hkR))
                    (fun k hk => Finset.mem_union_left _ hk)
                    (fun k hk => Finset.mem_union_right _ (List.mem_toFinset.mpr hk))
                    ?_ ?_ hpair' ?_
                  · refine ⟨tableSort_sorted _, hinv.hlen,
                      fun hbe2 => absurd hbe2 hplog, fun _ => ⟨S, hpS, hwfS, ?_, ?_⟩⟩
                    · intro k hk
                      rcases Finset.mem_union.mp hk with h | h
                      · exact hBS k (hRB k h)
                      · exact (mem_jqNot.mp (hrkMem k (List.mem_toFinset.mp h))).1
                    · intro h hm
                      obtain ⟨hwfH, hHB, hRecH, hRestH⟩ := hhs h hm
                      refine ⟨hwfH, fun k hk => hBS k (hHB k hk), hRecH, ?_⟩
                      intro hvis k hk hkR'
                      rcases Finset.mem_union.mp hkR' with h2 | h2
                      · exact hRestH hvis k hk h2
                      · exact hrkNotB k (List.mem_toFinset.mp h2) (hHB k (jqNot_sub k hk))
                  · exact Or.inr ⟨S, hpS, hheadS⟩
                  · exact sublist_tableSort hinv.tableSorted (List.sublist_append_left _ _)

/-- C1 counterexample, by a realizable session: one successful poll tick on
an 11-entry snapshot, then two user clicks on the load-more button.  The
tick's first-load batch touches only the 10 last insertion-order keys, all
well formed, so the callback completes: the poll loop stays alive, the
button is shown, and the handler captures the one remaining entry — which
lacks `from_`.  The first click's batch adds that entry's row and then
throws at the contact preview (line 45), BEFORE the `$(this).hide()` of
line 94: the button stays visible and the handler stays bound, so the
second click re-runs it and renders the same timestamp key a second time.
The trace satisfies the claim's premise (a single successful snapshot is
trivially superset-monotone), yet a key is rendered twice. -/
theorem C1_counterexample_double_render :
    (renderedHistory parseW initialState [.tick rMixW, .click, .click]).count tsMixN = 2 ∧
    ¬ (renderedHistory parseW initialState [.tick rMixW, .click, .click]).Nodup := by
  decide

/-- C1 (corrected): over any page session — poll ticks (successful or not),
transport failures and load-more clicks in any order — IF every successful
snapshot decodes to a well-formed one (distinct keys and, additionally to
the claim, every entry carrying `from_`, so that no batch render crashes)
and the successful snapshots' key sets grow monotonically, THEN every
timestamp key is rendered into the table at most once, and each step's table
extends the previous one as a sublist: previously rendered rows are never
re-rendered, and keep their relative order — in particular they are not
reordered to the bottom by a later batch.  Without the added `from_`
hypothesis the claim is false (see the counterexample): a load-more batch
that crashes mid-render skips the `$(this).hide()` of line 94, the button
stays visible, and a second click renders the same key again. -/
theorem C1_amended_at_most_once_per_key (parse : String → Option Snapshot) (tr : List Ev)
    (hp0 : parse "" = none)
    (hticks : ∀ r, Ev.tick r ∈ tr → r.status = true →
        ∃ S, parse r.imap_log = some S ∧ wfSnap S = true)
    (hmono : List.Chain' keySub (snapsOf parse tr)) :
    (renderedHistory parse initialState tr).Nodup ∧
    List.Chain' (fun t u => t.Sublist u)
      (initialState.table :: (stepsFrom parse initialState tr).map (fun o => o.st.table)) := by
  have hPair : (snapsOf parse tr).Pairwise keySub := List.chain'_iff_pairwise.mp hmono
  have hInv0 : C1Inv parse initialState ∅ :=
    ⟨List.Pairwise.nil, by simp [initialState], fun _ => ⟨rfl, rfl, rfl⟩,
      fun h => absurd rfl h⟩
  have h := c1_run parse hp0 tr true initialState ∅ hInv0 (Or.inl rfl) hticks hPair
  exact ⟨h.1.1, h.2⟩

/-- Witness for C1: a three-event session — two growing snapshots and a
load-more click. -/
theorem C1_amended_at_most_once_per_key_witness :
    (renderedHistory parseW initialState [.tick r1W, .tick r2W, .click]).Nodup ∧
    List.Chain' (fun t u => t.Sublist u)
      (initialState.table ::
        (stepsFrom parseW initialState [.tick r1W, .tick r2W, .click]).map
          (fun o => o.st.table)) := by
  apply C1_amended_at_most_once_per_key parseW [.tick r1W, .tick r2W, .click] rfl
  · intro r hr hs
    simp only [List.mem_cons, List.not_mem_nil, or_false] at hr
    rcases hr with h | h | h
    · injection h with h2
      subst h2
      exact ⟨snapA, by decide, by decide⟩
    · injection h with h2
      subst h2
      exact ⟨snapAB, by decide, by decide⟩
    · exact Ev.noConfusion h
  · have hsnaps : snapsOf parseW [.tick r1W, .tick r2W, .click] = [snapA, snapAB] := by
      decide
    rw [hsnaps]
    refine List.chain'_cons.mpr ⟨?_, List.chain'_singleton _⟩
    show ∀ k ∈ keysOf snapA, k ∈ keysOf snapAB
    decide

end YouPS
